import Mathlib

/-!
Verification of the post-tagging and shoot/KOL-group matching subsystem
(`shoot_matcher.py`, `post_tagger.py`, and the tag-propagation step of
`channel_sync.py`).

The Python code is shallowly embedded: strings are `String`/`List Char`
(ASCII semantics for the character classes that the data actually uses),
Python sets of surnames are `Finset String`, Python dicts are association
lists updated in place (`dictInsert`), nullable columns are `Option`,
and Python truthiness of an optional string (`None` and `""` are falsy)
is `optTruthy`.  Database queries become list filters/finds over an
explicit in-memory state.
-/

namespace CHM

/-- Python `\s` / `str.strip()` whitespace, restricted to the ASCII range
that the repository's data uses. -/
def pySpace (c : Char) : Bool :=
  c = ' ' || c = '\t' || c = '\n' || c = '\r' || c = '\x0b' || c = '\x0c'

/-- Python `\w` (ASCII): letters, digits and underscore. -/
def isWordChar (c : Char) : Bool :=
  ('a' ≤ c && c ≤ 'z') || ('A' ≤ c && c ≤ 'Z') || ('0' ≤ c && c ≤ '9') || c = '_'

def isUpperAZ (c : Char) : Bool := 'A' ≤ c && c ≤ 'Z'

def isLowerAZ (c : Char) : Bool := 'a' ≤ c && c ≤ 'z'

def isAlphaAZ (c : Char) : Bool := isUpperAZ c || isLowerAZ c

/-- Python `str.strip()`: drop leading and trailing whitespace. -/
def pyStrip (s : List Char) : List Char :=
  ((s.dropWhile pySpace).reverse.dropWhile pySpace).reverse

/-- Python `str.split()` with no argument: split on whitespace runs,
discarding empty pieces. -/
def pySplitWsAux : List Char → List Char → List (List Char)
  | [], acc => if acc.isEmpty then [] else [acc.reverse]
  | c :: r, acc =>
    if pySpace c then
      if acc.isEmpty then pySplitWsAux r [] else acc.reverse :: pySplitWsAux r []
    else pySplitWsAux r (c :: acc)

def pySplitWs (s : List Char) : List (List Char) := pySplitWsAux s []

/-- Lowercase a string character-wise (`str.lower()` on the ASCII range). -/
def pyLower (s : List Char) : List Char := s.map Char.toLower

/-- The substitution `re.sub(r'^dr\.?\s*', '', name)`: a leading `dr`,
an optional dot, then any run of whitespace, all removed when present. -/
def dropDrTitle : List Char → List Char
  | 'd' :: 'r' :: rest =>
    match rest with
    | '.' :: r => r.dropWhile pySpace
    | r => r.dropWhile pySpace
  | s => s

/-- The credential words of `re.sub(r',?\s*(md|phd|do|np|pa|rn)\.?$', '', name)`. -/
def credWords : List (List Char) :=
  [['m', 'd'], ['p', 'h', 'd'], ['d', 'o'], ['n', 'p'], ['p', 'a'], ['r', 'n']]

/-- Does a suffix match `,?\s*(md|phd|do|np|pa|rn)\.?$` in full?  After the
optional comma and the whitespace, the rest must be a credential word with an
optional trailing dot. -/
def credMatch (s : List Char) : Bool :=
  let s1 := match s with
    | ',' :: r => r
    | r => r
  let s2 := s1.dropWhile pySpace
  credWords.any fun w => s2 = w || s2 = w ++ ['.']

/-- Index of the leftmost position whose suffix matches the credential
pattern (this is where `re.sub` starts deleting, since the pattern is
anchored at the end of the string). -/
def credCut : List Char → Option Nat
  | [] => none
  | c :: rest =>
    if credMatch (c :: rest) then some 0
    else (credCut rest).map (· + 1)

/-- The substitution `re.sub(r',?\s*(md|phd|do|np|pa|rn)\.?$', '', name)`. -/
def dropCredSuffix (s : List Char) : List Char :=
  match credCut s with
  | some i => s.take i
  | none => s

/-- `normalize_doctor_name` from `shoot_matcher.py`: lowercase and strip,
remove a leading doctor title, remove a trailing credential, delete
apostrophes and hyphens, then return the last whitespace-separated token
(or what is left when there is none). -/
def normalize_doctor_name (name : String) : String :=
  let s := pyStrip (pyLower name.data)
  let s := dropDrTitle s
  let s := dropCredSuffix s
  let s := s.filter fun c => !(c = '\'' || c = '-')
  match (pySplitWs s).getLast? with
  | some p => String.mk (pyStrip p)
  | none => String.mk s

/-- Split on the delimiters of `re.split(r'[/,&]', group_name)`,
keeping empty pieces (they are filtered by the caller). -/
def splitGroupDelims : List Char → List Char → List (List Char)
  | [], acc => [acc.reverse]
  | c :: r, acc =>
    if c = '/' || c = ',' || c = '&' then acc.reverse :: splitGroupDelims r []
    else splitGroupDelims r (c :: acc)

/-- `extract_surnames_from_group_name` from `shoot_matcher.py`. -/
def extract_surnames_from_group_name (group_name : String) : Finset String :=
  (splitGroupDelims group_name.data []).foldl
    (fun acc part =>
      let part := pyStrip part
      if part.isEmpty then acc
      else
        let normalized := normalize_doctor_name (String.mk part)
        if normalized = "" then acc else insert normalized acc)
    ∅

/-- Step 2 of the specification's reference normalizer: strip a leading
"dr" / "dr." with optional whitespace after it. -/
def specDropTitle : List Char → List Char
  | 'd' :: 'r' :: rest =>
    match rest with
    | '.' :: r => r.dropWhile pySpace
    | r => r.dropWhile pySpace
  | s => s

/-- Step 3 of the specification's reference normalizer: does this suffix
consist of an optional comma, whitespace, a credential word
(MD, PhD, DO, NP, PA or RN, already lowercased), and an optional period? -/
def specCredSuffix (s : List Char) : Bool :=
  let afterComma := match s with
    | ',' :: r => r
    | r => r
  let core := afterComma.dropWhile pySpace
  credWords.any fun w => core = w || core = w ++ ['.']

/-- Step 3 continued: remove the longest suffix of credential form (the
substitution is anchored at the end of the string, so the leftmost start
position wins). -/
def specDropCred : List Char → List Char
  | [] => []
  | c :: rest => if specCredSuffix (c :: rest) then [] else c :: specDropCred rest

/-- The five-step reference definition of the normalizer as the claim words
it: lowercase and trim; strip a leading doctor title; strip a trailing
credential suffix; remove apostrophes and hyphens; return the last
whitespace-separated token, or the empty string if no tokens remain. -/
def normalizeSpec (name : String) : String :=
  let s := pyStrip (pyLower name.data)
  let s := specDropTitle s
  let s := specDropCred s
  let s := s.filter fun c => !(c = '\'' || c = '-')
  match (pySplitWs s).getLast? with
  | some p => String.mk (pyStrip p)
  | none => ""

/-- The reference definition amended at its last step: when no tokens
remain, the code returns the remaining string itself, which can still hold
whitespace left over from the credential strip, rather than the empty
string. -/
def normalizeSpecAmended (name : String) : String :=
  let s := pyStrip (pyLower name.data)
  let s := specDropTitle s
  let s := specDropCred s
  let s := s.filter fun c => !(c = '\'' || c = '-')
  match (pySplitWs s).getLast? with
  | some p => String.mk (pyStrip p)
  | none => String.mk s

/-! ## Data model

Records mirroring the ORM entities, restricted to the columns the core
reads or writes.  Nullable columns are `Option`; Python truthiness of an
optional string (both `None` and `""` are falsy) is `optTruthy`. -/

/-- Truthiness of a Python `str | None`: `None` and the empty string are
falsy. -/
def optTruthy : Option String → Bool
  | none => false
  | some s => !s.isEmpty

/-- A KOL (doctor) roster entry. -/
structure KOL where
  id : String
  name : Option String
  deriving DecidableEq, Repr

/-- A KOL group membership link (`member.kol` can be absent). -/
structure KOLGroupMember where
  kol : Option KOL
  deriving DecidableEq, Repr

/-- A KOL group: a named roster of doctors under a project. -/
structure KOLGroup where
  id : String
  project_id : Option String
  name : String
  members : List KOLGroupMember
  deriving DecidableEq, Repr

/-- A shoot (recording session). -/
structure Shoot where
  id : String
  name : String
  doctors : List String
  kol_group_id : Option String
  project_id : Option String
  deriving DecidableEq, Repr

/-- A clip. -/
structure Clip where
  id : String
  shoot_id : Option String
  tags : Option (List String)
  deriving DecidableEq, Repr

/-- A post. -/
structure Post where
  id : String
  title : Option String
  description : Option String
  source : String
  tags : Option (List String)
  shoot_id : Option String
  clip_id : Option String
  deriving DecidableEq, Repr

/-! ## KOL-group matcher (`shoot_matcher.find_matching_kol_group`) -/

/-- The surname set of a group: surnames parsed from the delimited `name`
field, united with the normalized names of its actual KOL members
(lines 106-114 of `shoot_matcher.py`; a member counts only when both the
KOL object and its name are truthy). -/
def groupSurnames (g : KOLGroup) : Finset String :=
  g.members.foldl
    (fun acc m =>
      match m.kol with
      | none => acc
      | some k =>
        match k.name with
        | none => acc
        | some nm =>
          if nm.isEmpty then acc
          else
            let normalized := normalize_doctor_name nm
            if normalized = "" then acc else insert normalized acc)
    (extract_surnames_from_group_name g.name)

/-- Intersection count of an input surname set with a group's surname set. -/
def interCount (s : Finset String) (g : KOLGroup) : Nat :=
  (s ∩ groupSurnames g).card

/-- One loop iteration of `find_matching_kol_group` (lines 105-130):
skip zero-intersection groups; a strictly larger count replaces the best;
an equal count replaces the best only when the input set is a subset of
the group's surname set. -/
def findStep (s : Finset String) (acc : Option KOLGroup × Nat) (g : KOLGroup) :
    Option KOLGroup × Nat :=
  let gs := groupSurnames g
  let matchCount := (s ∩ gs).card
  if 0 < matchCount then
    if matchCount > acc.2 then (some g, matchCount)
    else if matchCount = acc.2 ∧ acc.1.isSome then
      (if s ⊆ gs then (some g, acc.2) else acc)
    else acc
  else acc

/-- The selection loop of `find_matching_kol_group` over a prepared surname
set (lines 102-137): fold the step over all groups starting from no best
match, and pair the winner with its project id. -/
def find_matching_from_surnames (s : Finset String) (groups : List KOLGroup) :
    Option KOLGroup × Option String :=
  match (groups.foldl (findStep s) (none, 0)).1 with
  | some g => (some g, g.project_id)
  | none => (none, none)

/-- The surname set `{normalize_doctor_name(d) for d in doctors if d}`:
falsy (empty) raw names are skipped, but an empty normalization result is
kept in the set. -/
def shootSurnameSet (doctors : List String) : Finset String :=
  (doctors.filter (fun d => !d.isEmpty)).foldl
    (fun acc d => insert (normalize_doctor_name d) acc) ∅

/-- `find_matching_kol_group` from `shoot_matcher.py` (lines 67-137):
guard empty doctor lists and empty surname sets, then run the selection
loop. -/
def find_matching_kol_group (groups : List KOLGroup) (doctors : List String) :
    Option KOLGroup × Option String :=
  if doctors.isEmpty then (none, none)
  else
    let s := shootSurnameSet doctors
    if s = ∅ then (none, none)
    else find_matching_from_surnames s groups

/-- One loop iteration of `match_post_to_kol_group` (lines 313-328 of
`post_tagger.py`): only a strictly larger intersection count replaces the
best match; there is no tie-break. -/
def matchPostStep (s : Finset String) (acc : Option KOLGroup × Nat) (g : KOLGroup) :
    Option KOLGroup × Nat :=
  let matchCount := (s ∩ groupSurnames g).card
  if matchCount > acc.2 then (some g, matchCount) else acc

/-- The selection loop of `match_post_to_kol_group` over a prepared surname
set (lines 307-336 of `post_tagger.py`). -/
def match_post_from_surnames (s : Finset String) (groups : List KOLGroup) :
    Option KOLGroup :=
  if s = ∅ then none
  else (groups.foldl (matchPostStep s) (none, 0)).1

/-! ## Name extractor (`post_tagger.extract_doctor_names_from_text`)

The four regex pattern families are embedded as explicit parsers with the
regex engine's leftmost/greedy preferences, scanned over the text with
`re.finditer` semantics (try every position left to right, continue after
a match's end). -/

/-- The apostrophe tail `(?:['’][A-Za-z]+)+` of a name-word, matched
greedily: zero or more groups, each an apostrophe followed by letters.
Returns the consumed characters and the rest. -/
def apGroups : Nat → List Char → List Char × List Char
  | 0, s => ([], s)
  | fuel + 1, s =>
    match s with
    | c :: r =>
      if c = '\'' || c = '’' then
        let (w, r1) := r.span isAlphaAZ
        if w.isEmpty then ([], s)
        else
          let (more, r2) := apGroups fuel r1
          (c :: (w ++ more), r2)
      else ([], s)
    | [] => ([], s)

/-- The name-word alternative `[A-Z][a-z]*(?:['’][A-Za-z]+)+`
(apostrophe names such as O'Shaughnessey). -/
def pNW (s : List Char) : Option (List Char × List Char) :=
  match s with
  | c :: r =>
    if isUpperAZ c then
      let (low, r1) := r.span isLowerAZ
      let (gs, r2) := apGroups r1.length r1
      if gs.isEmpty then none else some (c :: (low ++ gs), r2)
    else none
  | [] => none

/-- The name-word alternative `[A-Z][a-z]+` (standard names). -/
def pNW2 (s : List Char) : Option (List Char × List Char) :=
  match s with
  | c :: r =>
    if isUpperAZ c then
      let (low, r1) := r.span isLowerAZ
      if low.isEmpty then none else some (c :: low, r1)
    else none
  | [] => none

/-- `_NW_FULL`: the apostrophe alternative is tried first. -/
def pNWFull (s : List Char) : Option (List Char × List Char) :=
  match pNW s with
  | some x => some x
  | none => pNW2 s

/-- Add one captured name-word: normalize it and keep it when longer than
two characters (`if normalized and len(normalized) > 2`). -/
def addSurname (w : List Char) (acc : Finset String) : Finset String :=
  let normalized := normalize_doctor_name (String.mk w)
  if 2 < normalized.length then insert normalized acc else acc

/-- Pattern 1 continuation after `Dr\.?\s+` and the optional initials:
a mandatory captured name-word, then optionally whitespace and a second
captured name-word. -/
def p1Cont (r : List Char) : Option (List (List Char) × List Char) :=
  match pNWFull r with
  | none => none
  | some (w1, r1) =>
    let (sp, r2) := r1.span pySpace
    if sp.isEmpty then some ([w1], r1)
    else
      match pNWFull r2 with
      | some (w2, r3) => some ([w1, w2], r3)
      | none => some ([w1], r1)

/-- The optional initials token `[A-Z]{1,3}\s+` with exactly `k` capital
letters; returns the rest after the whitespace. -/
def p1Initials (k : Nat) (r : List Char) : Option (List Char) :=
  if (r.take k).length = k && (r.take k).all isUpperAZ then
    let (sp, r2) := (r.drop k).span pySpace
    if sp.isEmpty then none else some r2
  else none

/-- Pattern 1 body after `Dr\.?\s+`: the initials quantifier is greedy
(three capitals first, then two, then one, then none), and each
alternative is abandoned only if the rest of the pattern fails after it. -/
def p1Core (r : List Char) : Option (List (List Char) × List Char) :=
  match p1Initials 3 r with
  | some r3 =>
    match p1Cont r3 with
    | some x => some x
    | none => p1CoreK2 r
  | none => p1CoreK2 r
where
  p1CoreK2 (r : List Char) : Option (List (List Char) × List Char) :=
    match p1Initials 2 r with
    | some r2 =>
      match p1Cont r2 with
      | some x => some x
      | none => p1CoreK1 r
    | none => p1CoreK1 r
  p1CoreK1 (r : List Char) : Option (List (List Char) × List Char) :=
    match p1Initials 1 r with
    | some r1 =>
      match p1Cont r1 with
      | some x => some x
      | none => p1Cont r
    | none => p1Cont r

/-- A pattern-1 match attempt at the current position:
`Dr\.?\s+(?:[A-Z]{1,3}\s+)?(NW)(?:\s+(NW))?`. -/
def p1At (s : List Char) : Option (List (List Char) × List Char) :=
  match s with
  | 'D' :: 'r' :: r0 =>
    let r1 := match r0 with
      | '.' :: r => r
      | _ => r0
    let (sp, r2) := r1.span pySpace
    if sp.isEmpty then none else p1Core r2
  | _ => none

/-- `re.finditer` over pattern 1, collecting normalized captures. -/
def scanPat1 : Nat → List Char → Finset String → Finset String
  | 0, _, acc => acc
  | _ + 1, [], acc => acc
  | fuel + 1, s, acc =>
    match p1At s with
    | some (ws, r1) => scanPat1 fuel r1 (ws.foldl (fun a w => addSurname w a) acc)
    | none => scanPat1 fuel s.tail acc

/-- The terminator `(?:\s*[-–—]|\s*$)` of pattern 2: optional whitespace
then a dash (consumed), or whitespace running to the end of the string. -/
def p2Term (l : List Char) : Option (List Char) :=
  let (_, l2) := l.span pySpace
  match l2 with
  | d :: r => if d = '-' || d = '–' || d = '—' then some r else none
  | [] => some []

/-- The lazy group `(.+?)` of pattern 2: grow the captured group one
character at a time (`.` does not cross a newline), checking the
terminator after each character. -/
def p2Lazy : Nat → List Char → List Char → Option (List Char × List Char)
  | 0, _, _ => none
  | fuel + 1, gRev, rest =>
    match rest with
    | [] => none
    | c :: r =>
      if c = '\n' then none
      else
        match p2Term r with
        | some r1 => some ((c :: gRev).reverse, r1)
        | none => p2Lazy fuel (c :: gRev) r

/-- A pattern-2 match attempt at the current position:
`Drs\.?\s+(.+?)(?:\s*[-–—]|\s*$)`, returning the captured group and the
rest after the whole match.  The leading `\s+` is consumed greedily
without backtracking, which can differ from the regex engine only on
matches whose lazily-grown group would consist of whitespace given back
by `\s+` — groups that contain no name-words and contribute no
surnames. -/
def p2At (s : List Char) : Option (List Char × List Char) :=
  match s with
  | 'D' :: 'r' :: 's' :: r0 =>
    let r1 := match r0 with
      | '.' :: r => r
      | _ => r0
    let (sp, r2) := r1.span pySpace
    if sp.isEmpty then none else p2Lazy r2.length [] r2
  | _ => none

/-- `re.split(r"[,&]|\band\b", part)`: split on commas, ampersands and the
word "and" delimited by word boundaries. -/
def splitAndParts : List Char → List Char → List (List Char)
  | accRev, [] => [accRev.reverse]
  | accRev, c :: r =>
    if c = ',' || c = '&' then accRev.reverse :: splitAndParts [] r
    else if c = 'a' && r.take 2 = ['n', 'd']
        && (match accRev with
            | [] => true
            | p :: _ => !isWordChar p)
        && (match r.drop 2 with
            | [] => true
            | nxt :: _ => !isWordChar nxt) then
      accRev.reverse :: splitAndParts [] (r.drop 2)
    else splitAndParts (c :: accRev) r
termination_by _ l => l.length
decreasing_by
  all_goals simp_arith [List.length_drop]

/-- `re.findall(NW_FULL, part)`: all name-words of a segment in order. -/
def findAllNW : Nat → List Char → List (List Char)
  | 0, _ => []
  | _ + 1, [] => []
  | fuel + 1, s =>
    match pNWFull s with
    | some (w, r1) => w :: findAllNW fuel r1
    | none => findAllNW fuel s.tail

/-- Processing of one pattern-2 captured group: split on the delimiters,
strip each segment, and take the last name-word of each non-empty segment
as the surname. -/
def p2Process (g : List Char) (acc : Finset String) : Finset String :=
  (splitAndParts [] g).foldl
    (fun a part =>
      let part := pyStrip part
      if part.isEmpty then a
      else
        match (findAllNW (part.length + 1) part).getLast? with
        | some w => addSurname w a
        | none => a)
    acc

/-- `re.finditer` over pattern 2. -/
def scanPat2 : Nat → List Char → Finset String → Finset String
  | 0, _, acc => acc
  | _ + 1, [], acc => acc
  | fuel + 1, s, acc =>
    match p2At s with
    | some (g, r1) => scanPat2 fuel r1 (p2Process g acc)
    | none => scanPat2 fuel s.tail acc

/-- The slash continuation `(?:/\w+)+` of pattern 3: consume as many
`/word` groups as possible. -/
def p3More : Nat → List Char → List (List Char) → List (List Char) × List Char
  | 0, s, acc => (acc.reverse, s)
  | fuel + 1, s, acc =>
    match s with
    | '/' :: r =>
      let (w, r1) := r.span isWordChar
      if w.isEmpty then (acc.reverse, s)
      else p3More fuel r1 (w :: acc)
    | _ => (acc.reverse, s)

/-- A pattern-3 match attempt at the current position:
`\w+(?:/\w+)+`, returning the slash-separated segments. -/
def p3At (s : List Char) : Option (List (List Char) × List Char) :=
  let (w1, r1) := s.span isWordChar
  if w1.isEmpty then none
  else
    let (parts, rest) := p3More r1.length r1 [w1]
    if 2 ≤ parts.length then some (parts, rest) else none

/-- `re.finditer` over pattern 3, normalizing each slash segment. -/
def scanPat3 : Nat → List Char → Finset String → Finset String
  | 0, _, acc => acc
  | _ + 1, [], acc => acc
  | fuel + 1, s, acc =>
    match p3At s with
    | some (parts, r1) => scanPat3 fuel r1 (parts.foldl (fun a w => addSurname w a) acc)
    | none => scanPat3 fuel s.tail acc

/-- The captured word `([A-Z][a-z'’]+)` of pattern 4. -/
def p4Word (r : List Char) : Option (List Char × List Char) :=
  match r with
  | c :: r1 =>
    if isUpperAZ c then
      let (w, r2) := r1.span fun d => isLowerAZ d || d = '\'' || d = '’'
      if w.isEmpty then none else some (c :: w, r2)
    else none
  | [] => none

/-- After one of the pattern-4 trigger words: `\s+` then the captured word. -/
def p4After (r0 : List Char) : Option (List Char × List Char) :=
  let (sp, r1) := r0.span pySpace
  if sp.isEmpty then none else p4Word r1

/-- A pattern-4 match attempt at the current position:
`(?:with|featuring|ft\.?)\s+([A-Z][a-z'’]+)`, alternatives in order. -/
def p4At (s : List Char) : Option (List Char × List Char) :=
  match (if s.take 4 = ['w', 'i', 't', 'h'] then p4After (s.drop 4) else none) with
  | some x => some x
  | none =>
    match (if s.take 9 = ['f', 'e', 'a', 't', 'u', 'r', 'i', 'n', 'g'] then p4After (s.drop 9) else none) with
    | some x => some x
    | none =>
      match s with
      | 'f' :: 't' :: r0 =>
        let r1 := match r0 with
          | '.' :: r => r
          | _ => r0
        p4After r1
      | _ => none

/-- `re.search(r"Dr\.?\s*$", prefix)` on the (reversed) text before the
match: the prefix ends in `Dr`, an optional dot and optional whitespace. -/
def endsWithDr (revPre : List Char) : Bool :=
  let r := revPre.dropWhile pySpace
  let r1 := match r with
    | '.' :: t => t
    | _ => r
  match r1 with
  | 'r' :: 'D' :: _ => true
  | _ => false

/-- `re.finditer` over pattern 4, skipping matches whose prefix ends with a
`Dr.` token (those are pattern 1's business).  The reversed prefix of the
scan position is carried along for the prefix test. -/
def scanPat4 : Nat → List Char → List Char → Finset String → Finset String
  | 0, _, _, acc => acc
  | _ + 1, _, [], acc => acc
  | fuel + 1, revPre, s, acc =>
    match p4At s with
    | some (w, r1) =>
      let consumed := s.take (s.length - r1.length)
      let acc1 := if endsWithDr revPre then acc else addSurname w acc
      scanPat4 fuel (consumed.reverse ++ revPre) r1 acc1
    | none =>
      match s with
      | c :: rest => scanPat4 fuel (c :: revPre) rest acc
      | [] => acc

/-- `extract_doctor_names_from_text` from `post_tagger.py` (lines 43-108).
The Python function returns `list(surnames)` in arbitrary set order; every
caller immediately turns the list back into a set, so the embedding
returns the set itself. -/
def extract_doctor_names_from_text (text : String) : Finset String :=
  if text = "" then ∅
  else
    let t := text.data
    let s1 := scanPat1 (t.length + 1) t ∅
    let s2 := scanPat2 (t.length + 1) t s1
    let s3 := scanPat3 (t.length + 1) t s2
    scanPat4 (t.length + 1) [] t s3

/-- `match_post_to_kol_group` from `post_tagger.py` (lines 294-336):
extract surnames from the post's title and description and run the
no-tie-break selection loop. -/
def match_post_to_kol_group (post : Post) (kol_groups : List KOLGroup) :
    Option KOLGroup :=
  let text := (post.title.getD "") ++ " " ++ (post.description.getD "")
  match_post_from_surnames (extract_doctor_names_from_text text) kol_groups

/-! ## Content tag scanner (`post_tagger.scan_text_for_tags`)

`re.search` is existential, so the category patterns are embedded as a
small pattern language whose evaluator enumerates all end positions of a
match starting at a given index. -/

/-- The pattern language: literals, sequencing, ordered alternation,
option, single/star/plus character classes, and the word boundary. -/
inductive Pat where
  | lit : List Char → Pat
  | seqP : Pat → Pat → Pat
  | altP : Pat → Pat → Pat
  | optP : Pat → Pat
  | cls : (Char → Bool) → Pat
  | star : (Char → Bool) → Pat
  | plus : (Char → Bool) → Pat
  | wb : Pat

/-- Is the character at index `i` a word character (out of range counts
as not)? -/
def isWordAt (t : List Char) (i : Nat) : Bool :=
  match (t.drop i).head? with
  | some c => isWordChar c
  | none => false

/-- Python `\b`: the two sides of position `i` disagree about being a word
character. -/
def boundaryAt (t : List Char) (i : Nat) : Bool :=
  (if i = 0 then false else isWordAt t (i - 1)) != isWordAt t i

/-- All end positions of a match of the pattern starting at index `i`. -/
def patEnds (t : List Char) : Pat → Nat → List Nat
  | .lit w, i => if (t.drop i).take w.length = w then [i + w.length] else []
  | .seqP p q, i => ((patEnds t p i).map (patEnds t q)).flatten
  | .altP p q, i => patEnds t p i ++ patEnds t q i
  | .optP p, i => i :: patEnds t p i
  | .cls f, i =>
    match (t.drop i).head? with
    | some c => if f c then [i + 1] else []
    | none => []
  | .star f, i => (List.range (((t.drop i).takeWhile f).length + 1)).map (i + ·)
  | .plus f, i => (List.range ((t.drop i).takeWhile f).length).map fun k => i + k + 1
  | .wb, i => if boundaryAt t i then [i] else []

/-- `re.search`: does the pattern match starting anywhere in the text? -/
def psearch (p : Pat) (t : List Char) : Bool :=
  (List.range (t.length + 1)).any fun i => !(patEnds t p i).isEmpty

/-- A dash or a space, the class `[- ]`. -/
def dashSpace (c : Char) : Bool := c = '-' || c = ' '

/-- An ASCII digit. -/
def isDigitAscii (c : Char) : Bool := '0' ≤ c && c ≤ '9'

/-- An escaped keyword between word boundaries: `\b<keyword>\b`. -/
def wbLit (kw : String) : Pat := .seqP .wb (.seqP (.lit kw.data) .wb)

/-- `re.match(r'^db(\d+)$', keyword)`: the digits of a `db<N>` trial
keyword. -/
def dbNum (kw : String) : Option (List Char) :=
  match kw.data with
  | 'd' :: 'b' :: rest =>
    if !rest.isEmpty && rest.all isDigitAscii then some rest else none
  | _ => none

/-- `destiny[- ]?breast[- ]?0?<num>\b`. -/
def destinyPat (num : List Char) : Pat :=
  .seqP (.lit "destiny".data) (.seqP (.optP (.cls dashSpace))
    (.seqP (.lit "breast".data) (.seqP (.optP (.cls dashSpace))
      (.seqP (.optP (.lit ['0'])) (.seqP (.lit num) .wb)))))

/-- `\bt[- ]?dxd\b|trastuzumab\s+deruxtecan`. -/
def tdxdPat : Pat :=
  .altP (.seqP .wb (.seqP (.lit ['t']) (.seqP (.optP (.cls dashSpace))
          (.seqP (.lit "dxd".data) .wb))))
        (.seqP (.lit "trastuzumab".data) (.seqP (.plus pySpace) (.lit "deruxtecan".data)))

/-- `\benhertu\b|trastuzumab\s+deruxtecan`. -/
def enhertuPat : Pat :=
  .altP (wbLit "enhertu")
        (.seqP (.lit "trastuzumab".data) (.seqP (.plus pySpace) (.lit "deruxtecan".data)))

/-- `\bt[- ]?dm1\b|ado[- ]trastuzumab`. -/
def tdm1Pat : Pat :=
  .altP (.seqP .wb (.seqP (.lit ['t']) (.seqP (.optP (.cls dashSpace))
          (.seqP (.lit "dm1".data) .wb))))
        (.seqP (.lit "ado".data) (.seqP (.cls dashSpace) (.lit "trastuzumab".data)))

/-- `\btrodelvy\b|sacituzumab\s+govitecan`. -/
def trodelvyPat : Pat :=
  .altP (wbLit "trodelvy")
        (.seqP (.lit "sacituzumab".data) (.seqP (.plus pySpace) (.lit "govitecan".data)))

/-- `\bdato[- ]?dxd\b|datopotamab`. -/
def datoPat : Pat :=
  .altP (.seqP .wb (.seqP (.lit "dato".data) (.seqP (.optP (.cls dashSpace))
          (.seqP (.lit "dxd".data) .wb))))
        (.lit "datopotamab".data)

/-- `her2[- ]?(?:positive|\+)`. -/
def her2PosPat : Pat :=
  .seqP (.lit "her2".data) (.seqP (.optP (.cls dashSpace))
    (.altP (.lit "positive".data) (.lit ['+'])))

/-- `her2[- ]?low\b`. -/
def her2LowPat : Pat :=
  .seqP (.lit "her2".data) (.seqP (.optP (.cls dashSpace)) (.seqP (.lit "low".data) .wb))

/-- `her2[- ]?(?:ultra[- ]?low|low\s*/\s*ultra)`. -/
def her2UltraPat : Pat :=
  .seqP (.lit "her2".data) (.seqP (.optP (.cls dashSpace))
    (.altP (.seqP (.lit "ultra".data) (.seqP (.optP (.cls dashSpace)) (.lit "low".data)))
           (.seqP (.lit "low".data) (.seqP (.star pySpace) (.seqP (.lit ['/'])
             (.seqP (.star pySpace) (.lit "ultra".data)))))))

/-- `\btnbc\b|triple[- ]negative`. -/
def tnbcPat : Pat :=
  .altP (wbLit "tnbc")
        (.seqP (.lit "triple".data) (.seqP (.cls dashSpace) (.lit "negative".data)))

/-- `\bhr[- ]?(?:positive|\+)`. -/
def hrPosPat : Pat :=
  .seqP .wb (.seqP (.lit "hr".data) (.seqP (.optP (.cls dashSpace))
    (.altP (.lit "positive".data) (.lit ['+']))))

/-- `high[- ]risk|cns\s+metast|brain\s+met`. -/
def highRiskPat : Pat :=
  .altP (.seqP (.lit "high".data) (.seqP (.cls dashSpace) (.lit "risk".data)))
    (.altP (.seqP (.lit "cns".data) (.seqP (.plus pySpace) (.lit "metast".data)))
           (.seqP (.lit "brain".data) (.seqP (.plus pySpace) (.lit "met".data))))

/-- `\bebc\b|early[- ]?stage|early breast cancer` (the `adjuvant`
lookbehind alternative is handled separately). -/
def ebcPat : Pat :=
  .altP (wbLit "ebc")
    (.altP (.seqP (.lit "early".data) (.seqP (.optP (.cls dashSpace)) (.lit "stage".data)))
           (.lit "early breast cancer".data))

/-- The alternative `(?<!\bneo)adjuvant`: an occurrence of `adjuvant` not
immediately preceded by a `neo` that itself starts at a word boundary. -/
def adjuvantNotNeo (t : List Char) : Bool :=
  (List.range (t.length + 1)).any fun i =>
    ((t.drop i).take 8 = "adjuvant".data) &&
      !(3 ≤ i && (t.drop (i - 3)).take 3 = "neo".data && boundaryAt t (i - 3))

/-- `\bmbc\b|metastatic breast cancer|metastatic\s+disease`. -/
def mbcPat : Pat :=
  .altP (wbLit "mbc")
    (.altP (.lit "metastatic breast cancer".data)
           (.seqP (.lit "metastatic".data) (.seqP (.plus pySpace) (.lit "disease".data))))

/-- Split a tag at its first colon: `(before, after)` (`after` is empty
when there is no colon). -/
def splitFirstColon : List Char → List Char × List Char
  | [] => ([], [])
  | c :: r =>
    if c = ':' then ([], r)
    else
      let (b, a) := splitFirstColon r
      (c :: b, a)

/-- The per-category keyword dispatch of `scan_text_for_tags`
(lines 157-247 of `post_tagger.py`) applied to the lowercased text. -/
def keywordHit (kw : String) (category : String) (tl : List Char) : Bool :=
  if category = "trial" then
    if psearch (wbLit kw) tl then true
    else
      match dbNum kw with
      | some num => psearch (destinyPat num) tl
      | none => false
  else if category = "drug" then
    if kw = "t-dxd" then psearch tdxdPat tl
    else if kw = "enhertu" then psearch enhertuPat tl
    else if kw = "t-dm1" then psearch tdm1Pat tl
    else if kw = "trodelvy" then psearch trodelvyPat tl
    else if kw = "dato-dxd" then psearch datoPat tl
    else if kw = "thp" then psearch (wbLit "thp") tl
    else psearch (wbLit kw) tl
  else if category = "biomarker" then
    if kw = "her2+" || kw = "her2-positive" then psearch her2PosPat tl
    else if kw = "her2-low" || kw = "her2 low" then psearch her2LowPat tl
    else if kw = "her2-ultralow" || kw = "her2 ultralow" || kw = "her2-low / ultra-low" then
      psearch her2UltraPat tl
    else if kw = "tnbc" || kw = "triple negative" then psearch tnbcPat tl
    else if kw = "hr+" then psearch hrPosPat tl
    else if kw = "pik3ca" then psearch (wbLit "pik3ca") tl
    else if kw.startsWith "high-risk" then psearch highRiskPat tl
    else psearch (wbLit kw) tl
  else if category = "topic" then psearch (wbLit kw) tl
  else if category = "stage" then
    if String.mk (pyLower kw.data) = "ebc" then psearch ebcPat tl || adjuvantNotNeo tl
    else if String.mk (pyLower kw.data) = "mbc" then psearch mbcPat tl
    else false
  else if category = "brand" then psearch (wbLit kw) tl
  else false

/-- The `X_HANDLE_TO_DOCTOR` lookup table of `post_tagger.py`. -/
def xHandleToDoctor : List (String × String) :=
  [("dradityabardia", "bardia"),
   ("irenekangmd", "kang"),
   ("drvkgadi", "gadi"),
   ("jamouabbi", "mouabbi"),
   ("cairomichelina", "cairo"),
   ("mfrimawi", "rimawi"),
   ("drbirhiray", "birhiray"),
   ("drneiliyengar", "iyengar"),
   ("neiliyengar", "iyengar"),
   ("erikahamiltonmd", "hamilton"),
   ("drhamilton", "hamilton"),
   ("markrobsonmd", "robson")]

/-- `re.finditer(r'@(\w+)', text_lower)` mapped through the handle table. -/
def scanHandles : Nat → List Char → Finset String → Finset String
  | 0, _, acc => acc
  | _ + 1, [], acc => acc
  | fuel + 1, '@' :: rest, acc =>
    let (w, r1) := rest.span isWordChar
    if w.isEmpty then scanHandles fuel rest acc
    else
      let handle := String.mk (pyLower w)
      match xHandleToDoctor.find? (fun kv => kv.1 = handle) with
      | some kv => scanHandles fuel r1 (insert kv.2 acc)
      | none => scanHandles fuel r1 acc
  | fuel + 1, _ :: rest, acc => scanHandles fuel rest acc

/-- Lexicographic comparison of character lists by code point — the order
Python's `sorted` uses on strings. -/
def lexLe : List Char → List Char → Bool
  | [], _ => true
  | _ :: _, [] => false
  | a :: as, b :: bs => if a = b then lexLe as bs else decide (a < b)

theorem lexLe_trans : ∀ {x y z : List Char},
    lexLe x y = true → lexLe y z = true → lexLe x z = true
  | [], _, _, _, _ => rfl
  | _ :: _, [], _, hxy, _ => by cases hxy
  | _ :: _, _ :: _, [], _, hyz => by cases hyz
  | a :: as, b :: bs, c :: cs, hxy, hyz => by
    rw [lexLe] at hxy hyz ⊢
    by_cases hab : a = b
    · subst hab
      rw [if_pos rfl] at hxy
      by_cases hac : a = c
      · subst hac
        rw [if_pos rfl] at hyz ⊢
        exact lexLe_trans hxy hyz
      · rw [if_neg hac] at hyz ⊢
        exact hyz
    · rw [if_neg hab] at hxy
      by_cases hbc : b = c
      · subst hbc
        rw [if_neg hab]
        exact hxy
      · rw [if_neg hbc] at hyz
        have hac : a < c := lt_trans (of_decide_eq_true hxy) (of_decide_eq_true hyz)
        have hac2 : ¬ a = c := by
          intro he
          rw [he] at hac
          exact lt_irrefl c hac
        rw [if_neg hac2, decide_eq_true hac]

theorem lexLe_total : ∀ x y : List Char, lexLe x y = true ∨ lexLe y x = true
  | [], _ => Or.inl rfl
  | _ :: _, [] => Or.inr rfl
  | a :: as, b :: bs => by
    by_cases hab : a = b
    · subst hab
      rcases lexLe_total as bs with h | h
      · left
        rw [lexLe, if_pos rfl]
        exact h
      · right
        rw [lexLe, if_pos rfl]
        exact h
    · rcases lt_or_gt_of_ne hab with h | h
      · left
        rw [lexLe, if_neg hab, decide_eq_true h]
      · right
        rw [lexLe, if_neg (fun hba => hab hba.symm), decide_eq_true h]

theorem lexLe_antisymm : ∀ {x y : List Char},
    lexLe x y = true → lexLe y x = true → x = y
  | [], [], _, _ => rfl
  | [], _ :: _, _, hyx => by cases hyx
  | _ :: _, [], hxy, _ => by cases hxy
  | a :: as, b :: bs, hxy, hyx => by
    rw [lexLe] at hxy hyx
    by_cases hab : a = b
    · subst hab
      rw [if_pos rfl] at hxy hyx
      rw [lexLe_antisymm hxy hyx]
    · rw [if_neg hab] at hxy
      rw [if_neg (fun hba => hab hba.symm)] at hyx
      exact absurd (of_decide_eq_true hyx) (not_lt_of_gt (of_decide_eq_true hxy))

/-- The string order used to model Python `sorted`. -/
def strLe (a b : String) : Prop := lexLe a.data b.data = true

instance : DecidableRel strLe := fun a b =>
  inferInstanceAs (Decidable (lexLe a.data b.data = true))

instance : IsTrans String strLe := ⟨fun _ _ _ => lexLe_trans⟩

instance : IsTotal String strLe := ⟨fun a b => lexLe_total a.data b.data⟩

instance : IsAntisymm String strLe :=
  ⟨fun _ _ hab hba => String.ext (lexLe_antisymm hab hba)⟩

/-- Python `str.capitalize()`: first character uppercased, the rest
lowercased. -/
def pyCapitalize (s : String) : String :=
  match s.data with
  | [] => ""
  | c :: r => String.mk (c.toUpper :: pyLower r)

/-- Sort a set of strings into a list (`sorted` of a Python set):
insertion sort over any list representing the set, well defined because
sorting any two permuted lists gives the same sorted result. -/
def sortStrings (s : Finset String) : List String :=
  Quot.liftOn s.val (List.insertionSort strLe) fun a b h =>
    have hp : a.Perm b := h
    List.eq_of_perm_of_sorted
      ((List.perm_insertionSort strLe a).trans
        (hp.trans (List.perm_insertionSort strLe b).symm))
      (List.sorted_insertionSort strLe a) (List.sorted_insertionSort strLe b)

/-- `scan_text_for_tags` from `post_tagger.py` (lines 140-270).  The tag
vocabulary is an insertion-ordered association list keyword → tag; the
doctor-name pass iterates the extracted-surname set (order immaterial:
each surname independently inserts at most one tag into the result set)
and resolves each known surname to the first `doctor:` vocabulary value
of the same lowercased name, else to a capitalized synthesized tag. -/
def scan_text_for_tags (text_content : String) (tag_vocab : List (String × String))
    (known_doctors : Finset String) : List String :=
  if text_content = "" then []
  else
    let tl := pyLower text_content.data
    let matched0 : Finset String :=
      tag_vocab.foldl
        (fun acc kv =>
          let category := String.mk (splitFirstColon kv.2.data).1
          if category = "doctor" then acc
          else if keywordHit kv.1 category tl then insert kv.2 acc
          else acc)
        ∅
    let extracted :=
      extract_doctor_names_from_text text_content ∪ scanHandles (tl.length + 1) tl ∅
    let matched :=
      (sortStrings extracted).foldl
        (fun acc surname =>
          if surname ∈ known_doctors then
            match tag_vocab.find? (fun kv =>
                kv.2.startsWith "doctor:" &&
                  String.mk (pyLower (splitFirstColon kv.2.data).2) = surname) with
            | some kv => insert kv.2 acc
            | none => insert ("doctor:" ++ pyCapitalize surname) acc
          else acc)
        matched0
    sortStrings matched

/-! ## Database state and dictionaries

A Python dict is an insertion-ordered association list: `dictInsert`
updates an existing key in place or appends a new one at the end. -/

/-- Insert or update a key in an insertion-ordered association list. -/
def dictInsert {α : Type} (k : String) (v : α) : List (String × α) → List (String × α)
  | [] => [(k, v)]
  | (k1, v1) :: rest =>
    if k1 = k then (k1, v) :: rest else (k1, v1) :: dictInsert k v rest

/-- Dictionary lookup (`d.get(k)` / `d[k]`). -/
def dictLookup {α : Type} : List (String × α) → String → Option α
  | [], _ => none
  | kv :: rest, k => if kv.1 = k then some kv.2 else dictLookup rest k

/-- The in-memory database state the core reads and writes. -/
structure DBState where
  kols : List KOL
  kol_groups : List KOLGroup
  shoots : List Shoot
  clips : List Clip
  posts : List Post
  deriving DecidableEq, Repr

/-! ## Shoot assignment orchestrator (`shoot_matcher.py`) -/

/-- `assign_shoot_to_kol_group` (lines 140-172): no doctors or an already
truthy pair of link fields means no write; otherwise run the matcher and
write both link fields when a group and a truthy project id come back. -/
def assign_shoot_to_kol_group (groups : List KOLGroup) (shoot : Shoot) :
    Bool × Shoot :=
  if shoot.doctors.isEmpty then (false, shoot)
  else if optTruthy shoot.kol_group_id && optTruthy shoot.project_id then (false, shoot)
  else
    match find_matching_kol_group groups shoot.doctors with
    | (some kol_group, project_id) =>
      if optTruthy project_id then
        (true, { shoot with kol_group_id := some kol_group.id, project_id := project_id })
      else (false, shoot)
    | (none, _) => (false, shoot)

/-- One entry of the `assignments` audit list. -/
structure AssignRecord where
  shoot_id : String
  shoot_name : String
  kol_group_id : Option String
  project_id : Option String
  deriving DecidableEq, Repr

/-- The statistics dict returned by `assign_unlinked_shoots`. -/
structure AssignStats where
  total_unlinked : Nat
  assigned : Nat
  unmatched : Nat
  assignments : List AssignRecord
  deriving DecidableEq, Repr

/-- The selection `Shoot.kol_group_id IS NULL OR Shoot.project_id IS NULL`. -/
def shootUnlinked (s : Shoot) : Bool := s.kol_group_id.isNone || s.project_id.isNone

/-- One iteration of the `assign_unlinked_shoots` statistics loop
(lines 196-206). -/
def assignStep (groups : List KOLGroup) (st : AssignStats) (s : Shoot) : AssignStats :=
  let r := assign_shoot_to_kol_group groups s
  if r.1 then
    { st with
      assigned := st.assigned + 1
      assignments :=
        st.assignments ++ [⟨r.2.id, r.2.name, r.2.kol_group_id, r.2.project_id⟩] }
  else { st with unmatched := st.unmatched + 1 }

/-- `assign_unlinked_shoots` (lines 175-215): select the unlinked shoots,
try to assign each, and report the statistics.  Each iteration touches
only its own shoot and reads only the (unchanged) groups, so the final
shoot list is the original list with every selected shoot replaced by its
processed version. -/
def assign_unlinked_shoots (db : DBState) : DBState × AssignStats :=
  let unlinked := db.shoots.filter shootUnlinked
  ({ db with
      shoots := db.shoots.map fun s =>
        if shootUnlinked s then (assign_shoot_to_kol_group db.kol_groups s).2 else s },
   unlinked.foldl (assignStep db.kol_groups) ⟨unlinked.length, 0, 0, []⟩)

/-! ## Tag vocabulary and group tag pools (`post_tagger.py`) -/

/-- `build_tag_vocabulary` (lines 111-137): the distinct tags of all
non-null, non-empty clip tag arrays (`SELECT DISTINCT unnest(tags)`
returns rows in unspecified order; the embedding takes one representative
per distinct tag of the concatenation in clip order), filtered to values
of three or more characters, keyed by the lowercased stripped value. -/
def build_tag_vocabulary (clips : List Clip) : List (String × String) :=
  let all_tags :=
    (clips.foldr
      (fun c acc =>
        match c.tags with
        | some ts => if ts.isEmpty then acc else ts ++ acc
        | none => acc)
      []).dedup
  all_tags.foldl
    (fun vocab tag =>
      if tag.data.contains ':' then
        let value_lower := pyStrip (pyLower (splitFirstColon tag.data).2)
        if value_lower.length < 3 then vocab
        else dictInsert (String.mk value_lower) tag vocab
      else vocab)
    []

/-- `get_tags_for_kol_group` (lines 273-291): the set of tags of clips
joined to a shoot of this group, sorted.  The join can duplicate rows,
which a set union absorbs. -/
def get_tags_for_kol_group (shoots : List Shoot) (clips : List Clip)
    (g : KOLGroup) : List String :=
  let tags :=
    clips.foldl
      (fun acc c =>
        match c.tags with
        | some ts =>
          if shoots.any (fun s => c.shoot_id = some s.id && s.kol_group_id = some g.id) then
            acc ∪ ts.toFinset
          else acc
        | none => acc)
      (∅ : Finset String)
  sortStrings tags

/-- The `group_tags_raw` dict of `tag_official_posts` (lines 381-384):
group id → its own reachable tags. -/
def groupTagsRaw (db : DBState) : List (String × List String) :=
  db.kol_groups.foldl
    (fun d g => dictInsert g.id (get_tags_for_kol_group db.shoots db.clips g) d) []

/-- The `name_to_tags` dict (lines 387-389): group name → union of the raw
tag sets of all groups with that name. -/
def nameToTags (db : DBState) (raw : List (String × List String)) :
    List (String × Finset String) :=
  db.kol_groups.foldl
    (fun d g =>
      let ts := ((dictLookup raw g.id).getD []).toFinset
      match dictLookup d g.name with
      | some old => dictInsert g.name (old ∪ ts) d
      | none => dictInsert g.name ts d)
    []

/-- The `group_tags` dict (lines 391-394): group id → sorted merged pool
of its name. -/
def groupTagsDict (db : DBState) : List (String × List String) :=
  let n2t := nameToTags db (groupTagsRaw db)
  db.kol_groups.foldl
    (fun d g => dictInsert g.id (sortStrings ((dictLookup n2t g.name).getD ∅)) d) []

/-- The `group_shoots` dict (lines 397-403): group id → id of its first
shoot, in the (unspecified) order modeled as list order. -/
def groupShootsDict (db : DBState) : List (String × Option String) :=
  db.kol_groups.foldl
    (fun d g =>
      dictInsert g.id ((db.shoots.find? fun s => s.kol_group_id = some g.id).map (·.id)) d)
    []

/-- The `known_doctors` set of `tag_official_posts` (lines 354-368):
lowercased values of `doctor:` vocabulary tags, united with normalized
non-null KOL names longer than two characters. -/
def knownDoctorsOf (db : DBState) (vocab : List (String × String)) : Finset String :=
  let fromVocab :=
    vocab.foldl
      (fun acc kv =>
        if kv.2.startsWith "doctor:" then
          insert (String.mk (pyLower (splitFirstColon kv.2.data).2)) acc
        else acc)
      (∅ : Finset String)
  db.kols.foldl
    (fun acc k =>
      match k.name with
      | some nm =>
        let normalized := normalize_doctor_name nm
        if 2 < normalized.length then insert normalized acc else acc
      | none => acc)
    fromVocab

/-! ## Post tagging orchestrator (`post_tagger.tag_official_posts`) -/

/-- The statistics dict of `tag_official_posts` (lines 414-420). -/
structure TagStats where
  total_untagged : Nat
  kol_matched : Nat
  content_scanned : Nat
  still_empty : Nat
  tags_applied : Nat
  deriving DecidableEq, Repr

/-- The stats structure rendered as the Python dict it is: five fixed
keys. -/
def tagStatsDict (st : TagStats) : List (String × Nat) :=
  [("total_untagged", st.total_untagged),
   ("kol_matched", st.kol_matched),
   ("content_scanned", st.content_scanned),
   ("still_empty", st.still_empty),
   ("tags_applied", st.tags_applied)]

/-- The batch-wide context built once per run of `tag_official_posts`. -/
structure TagCtx where
  tag_vocab : List (String × String)
  known_doctors : Finset String
  kol_groups : List KOLGroup
  group_tags : List (String × List String)
  group_shoots : List (String × Option String)

/-- Which of the three outcome counters one post hits, with the number of
tags it applied. -/
inductive TagOutcome where
  | kolMatched : Nat → TagOutcome
  | contentScanned : Nat → TagOutcome
  | stillEmpty : TagOutcome
  deriving DecidableEq, Repr

/-- The per-post body of the `tag_official_posts` loop (lines 422-456):
pass 1 stamps a matched group's non-empty merged tags and back-fills a
falsy `shoot_id`; otherwise pass 2 stamps non-empty scanned tags (still
back-filling `shoot_id` from a pass-1 match); otherwise the post is
marked processed with the empty tag list. -/
def processPost (ctx : TagCtx) (post : Post) : Post × TagOutcome :=
  let post_text := (post.title.getD "") ++ " " ++ (post.description.getD "")
  let matched_group :=
    if ctx.kol_groups.isEmpty then none else match_post_to_kol_group post ctx.kol_groups
  let kolBranch : Option (Post × TagOutcome) :=
    match matched_group with
    | some g =>
      let kol_tags := (dictLookup ctx.group_tags g.id).getD []
      if kol_tags.isEmpty then none
      else
        some ({ post with
                 tags := some kol_tags
                 shoot_id :=
                   if optTruthy post.shoot_id then post.shoot_id
                   else (dictLookup ctx.group_shoots g.id).getD none },
              .kolMatched kol_tags.length)
    | none => none
  match kolBranch with
  | some r => r
  | none =>
    let scanned_tags := scan_text_for_tags post_text ctx.tag_vocab ctx.known_doctors
    if scanned_tags.isEmpty then ({ post with tags := some [] }, .stillEmpty)
    else
      ({ post with
          tags := some scanned_tags
          shoot_id :=
            match matched_group with
            | some g =>
              if optTruthy post.shoot_id then post.shoot_id
              else (dictLookup ctx.group_shoots g.id).getD none
            | none => post.shoot_id },
       .contentScanned scanned_tags.length)

/-- The selection `Post.source == "direct" AND Post.tags IS NULL`. -/
def postUntagged (p : Post) : Bool := p.source == "direct" && p.tags.isNone

/-- Add one post's outcome to the running statistics. -/
def bumpStats (st : TagStats) : TagOutcome → TagStats
  | .kolMatched n =>
    { st with kol_matched := st.kol_matched + 1, tags_applied := st.tags_applied + n }
  | .contentScanned n =>
    { st with content_scanned := st.content_scanned + 1, tags_applied := st.tags_applied + n }
  | .stillEmpty => { st with still_empty := st.still_empty + 1 }

/-- The context `tag_official_posts` builds once per run (lines 352-403). -/
def buildTagCtx (db : DBState) : TagCtx :=
  let tag_vocab := build_tag_vocabulary db.clips
  ⟨tag_vocab, knownDoctorsOf db tag_vocab, db.kol_groups, groupTagsDict db, groupShootsDict db⟩

/-- `tag_official_posts` (lines 339-466): build the context, select the
untagged direct posts, process each (the loop body reads only the context
and its own post, so the final post list is the original list with every
selected post replaced by its processed version), and report statistics. -/
def tag_official_posts (db : DBState) : DBState × TagStats :=
  let ctx := buildTagCtx db
  let untagged := db.posts.filter postUntagged
  let stats :=
    untagged.foldl (fun st p => bumpStats st (processPost ctx p).2)
      ⟨untagged.length, 0, 0, 0, 0⟩
  ({ db with
      posts := db.posts.map fun p => if postUntagged p then (processPost ctx p).1 else p },
   stats)

/-! ## Tag propagation (`post_tagger.propagate_clip_tags_to_posts`) -/

/-- The join row of `propagate_clip_tags_to_posts` for one post: the
clip's (possibly empty) tag list when the post is a webhook post with null
tags whose clip (clip ids are primary keys, so `find?` models the join)
exists and has non-null tags. -/
def clipTagsForPost (clips : List Clip) (p : Post) : Option (List String) :=
  if p.source == "webhook" && p.tags.isNone then
    match p.clip_id with
    | some cid =>
      match clips.find? fun c => c.id = cid with
      | some c => c.tags
      | none => none
    | none => none
  else none

/-- `propagate_clip_tags_to_posts` (lines 469-491): each joined post
receives the clip's tags verbatim and is counted, but only when the tag
list is also truthy (non-empty). -/
def propagate_clip_tags_to_posts (clips : List Clip) : List Post → List Post × Nat
  | [] => ([], 0)
  | p :: rest =>
    let (rest1, n) := propagate_clip_tags_to_posts clips rest
    match clipTagsForPost clips p with
    | some clip_tags =>
      if clip_tags.isEmpty then (p :: rest1, n)
      else ({ p with tags := some clip_tags } :: rest1, n + 1)
    | none => (p :: rest1, n)

/-! ## The auto-tag step of `channel_sync.sync_youtube_posts` -/

/-- A Python `d[k]` on a dict of counters: a missing key raises
`KeyError`, modeled as `Except.error`. -/
def dictGetNat (d : List (String × Nat)) (k : String) : Except String Nat :=
  match dictLookup d k with
  | some v => Except.ok v
  | none => Except.error ("KeyError: " ++ k)

/-- Lines 189-194 of `channel_sync.py`: after the YouTube sync,
`tag_official_posts` runs and the caller reads `tag_stats["matched"]` to
decide whether to log. -/
def sync_youtube_tag_step (db : DBState) : Except String (DBState × Bool) :=
  let r := tag_official_posts db
  match dictGetNat (tagStatsDict r.2) "matched" with
  | Except.ok v => Except.ok (r.1, decide (0 < v))
  | Except.error e => Except.error e

/-! ## Theorems -/

theorem specCredSuffix_eq (s : List Char) : specCredSuffix s = credMatch s := rfl

theorem specDropTitle_eq (s : List Char) : specDropTitle s = dropDrTitle s := rfl

theorem specDropCred_eq (s : List Char) : specDropCred s = dropCredSuffix s := by
  induction s with
  | nil => rfl
  | cons c r ih =>
    by_cases h : credMatch (c :: r)
    · simp [specDropCred, dropCredSuffix, credCut, specCredSuffix_eq, h]
    · simp only [specDropCred, specCredSuffix_eq, h, if_false, Bool.false_eq_true, ih,
        dropCredSuffix, credCut]
      cases hr : credCut r with
      | none => simp
      | some i => simp [List.take_succ_cons]

/-- C6 counterexample: on the input `"' , md"` the credential strip leaves
`"' "`, apostrophe removal leaves `" "`, no whitespace-separated token
remains, and the code returns the leftover string `" "` — not the empty
string the reference definition's final step prescribes. -/
theorem normalize_fallback_counterexample :
    normalize_doctor_name (String.mk ['\'', ' ', ',', ' ', 'm', 'd']) = " " ∧
    normalizeSpec (String.mk ['\'', ' ', ',', ' ', 'm', 'd']) = "" ∧
    normalize_doctor_name (String.mk ['\'', ' ', ',', ' ', 'm', 'd']) ≠
      normalizeSpec (String.mk ['\'', ' ', ',', ' ', 'm', 'd']) := by
  refine ⟨by decide, by decide, by decide⟩

/-- C6 (amended): `normalize_doctor_name` equals the five-step reference
definition with its final step amended to return the leftover string
(rather than the empty string) when no whitespace-separated token remains;
in particular the three normalization-stability examples all evaluate to
`"oshaughnessey"`. -/
theorem normalize_doctor_name_spec :
    (∀ name : String, normalize_doctor_name name = normalizeSpecAmended name) ∧
    normalize_doctor_name "Dr. Joyce O'Shaughnessey, MD" = "oshaughnessey" ∧
    normalize_doctor_name "O'Shaughnessey" = "oshaughnessey" ∧
    normalize_doctor_name "oshaughnessey" = "oshaughnessey" := by
  refine ⟨fun name => ?_, by decide, by decide, by decide⟩
  simp only [normalize_doctor_name, normalizeSpecAmended, specDropTitle_eq, specDropCred_eq]

/-- C4 counterexample: a webhook post with null tags whose linked clip has
the non-null empty tag list is left unchanged and not counted — the claim
requires a verbatim copy (`tags = some []`) and a count of 1 here. -/
theorem propagate_skips_empty_clip_tags :
    propagate_clip_tags_to_posts [⟨"c0", none, some []⟩]
        [⟨"q0", none, none, "webhook", none, none, some "c0"⟩] =
      ([⟨"q0", none, none, "webhook", none, none, some "c0"⟩], 0) ∧
    (⟨"q0", none, none, "webhook", none, none, some "c0"⟩ : Post).tags = none := by
  refine ⟨by decide, rfl⟩

/-- C4 (amended): a post receives its clip's tags verbatim and is counted
exactly when it is a webhook post with null tags whose linked clip has
non-null and non-empty tags; a post whose clip's non-null tag list is
empty, and every other post, is left unchanged. -/
theorem propagate_clip_tags_characterization (clips : List Clip) (posts : List Post) :
    propagate_clip_tags_to_posts clips posts =
      (posts.map fun p =>
        match clipTagsForPost clips p with
        | some ts => if ts.isEmpty then p else { p with tags := some ts }
        | none => p,
       posts.countP fun p =>
        match clipTagsForPost clips p with
        | some ts => !ts.isEmpty
        | none => false) := by
  induction posts with
  | nil => rfl
  | cons p rest ih =>
    simp only [propagate_clip_tags_to_posts, ih, List.map_cons, List.countP_cons]
    cases hrow : clipTagsForPost clips p with
    | none => simp
    | some ts =>
      cases ts with
      | nil => simp
      | cons t tr => simp

/-- C10: `assign_shoot_to_kol_group` returns `False` and leaves the shoot
untouched when the doctors list is empty, when the shoot is already fully
linked (both link fields truthy, the code's skip condition), when no group
matches, or when the matched group's `project_id` is null; and when it
returns `True` it has found a group and a truthy project id and has
written exactly the two link fields. -/
theorem assign_shoot_frame (groups : List KOLGroup) (shoot : Shoot) :
    (shoot.doctors = [] → assign_shoot_to_kol_group groups shoot = (false, shoot)) ∧
    (optTruthy shoot.kol_group_id = true → optTruthy shoot.project_id = true →
      assign_shoot_to_kol_group groups shoot = (false, shoot)) ∧
    ((find_matching_kol_group groups shoot.doctors).1 = none →
      assign_shoot_to_kol_group groups shoot = (false, shoot)) ∧
    (∀ g, find_matching_kol_group groups shoot.doctors = (some g, none) →
      assign_shoot_to_kol_group groups shoot = (false, shoot)) ∧
    (∀ r, assign_shoot_to_kol_group groups shoot = (true, r) →
      ∃ g pid, find_matching_kol_group groups shoot.doctors = (some g, some pid) ∧
        pid ≠ "" ∧ r.kol_group_id = some g.id ∧ r.project_id = some pid ∧
        r.id = shoot.id ∧ r.name = shoot.name ∧ r.doctors = shoot.doctors) := by
  refine ⟨?_, ?_, ?_, ?_, ?_⟩
  · intro h
    simp [assign_shoot_to_kol_group, h]
  · intro h1 h2
    cases hd : shoot.doctors.isEmpty
    · simp [assign_shoot_to_kol_group, hd, h1, h2]
    · simp [assign_shoot_to_kol_group, hd, h1, h2]
  · intro h
    cases hm : find_matching_kol_group groups shoot.doctors with
    | mk og opid =>
      rw [hm] at h
      simp only at h
      subst h
      simp [assign_shoot_to_kol_group, hm]
  · intro g hm
    simp [assign_shoot_to_kol_group, hm, optTruthy]
  · intro r h
    rw [assign_shoot_to_kol_group] at h
    by_cases hd : shoot.doctors.isEmpty = true
    · simp [hd] at h
    by_cases hl : (optTruthy shoot.kol_group_id && optTruthy shoot.project_id) = true
    · simp [hd, hl] at h
    cases hm : find_matching_kol_group groups shoot.doctors with
    | mk og opid =>
      rw [hm] at h
      simp only [hd, hl, Bool.false_eq_true, if_false] at h
      cases og with
      | none => simp at h
      | some g =>
        cases opid with
        | none => simp [optTruthy] at h
        | some pid =>
          by_cases hp : pid = ""
          · subst hp
            have ht : optTruthy (some "") = false := by decide
            simp [ht] at h
          · have hem : pid.isEmpty = false := by
              cases hem : pid.isEmpty
              · rfl
              · exact absurd ((String.isEmpty_iff pid).mp hem) hp
            have ht : optTruthy (some pid) = true := by simp [optTruthy, hem]
            simp only [ht, if_true] at h
            have hr : r = { shoot with kol_group_id := some g.id, project_id := some pid } := by
              have := congrArg Prod.snd h
              exact this.symm
            subst hr
            exact ⟨g, pid, rfl, hp, rfl, rfl, rfl, rfl, rfl⟩

/-! ### The matcher's selection rule (C1, C2) -/

/-- The largest intersection count any group of the list attains. -/
def maxInterCount (s : Finset String) (groups : List KOLGroup) : Nat :=
  groups.foldr (fun g m => max (interCount s g) m) 0

theorem maxInterCount_cons (s : Finset String) (g : KOLGroup) (gs : List KOLGroup) :
    maxInterCount s (g :: gs) = max (interCount s g) (maxInterCount s gs) := rfl

theorem le_maxInterCount (s : Finset String) {g : KOLGroup} {gs : List KOLGroup}
    (h : g ∈ gs) : interCount s g ≤ maxInterCount s gs := by
  induction gs with
  | nil => cases h
  | cons a t ih =>
    rcases List.mem_cons.mp h with rfl | ht
    · exact le_max_left _ _
    · exact le_trans (ih ht) (le_max_right _ _)

theorem maxInterCount_eq_zero_iff (s : Finset String) (gs : List KOLGroup) :
    maxInterCount s gs = 0 ↔ ∀ g ∈ gs, interCount s g = 0 := by
  induction gs with
  | nil => simp [maxInterCount]
  | cons a t ih =>
    rw [maxInterCount_cons]
    simp only [Nat.max_eq_zero_iff, ih, List.mem_cons]
    constructor
    · rintro ⟨h1, h2⟩ g (rfl | hg)
      · exact h1
      · exact h2 g hg
    · intro h
      exact ⟨h a (Or.inl rfl), fun g hg => h g (Or.inr hg)⟩

theorem findStep_zero (s : Finset String) (b : Option KOLGroup) (c : Nat) (g : KOLGroup)
    (h : interCount s g = 0) : findStep s (b, c) g = (b, c) := by
  simp [findStep, interCount] at h ⊢
  simp [h]

theorem findStep_lt (s : Finset String) (b : Option KOLGroup) (c : Nat) (g : KOLGroup)
    (h : interCount s g < c) : findStep s (b, c) g = (b, c) := by
  simp only [interCount] at h
  have h1 : ¬ (s ∩ groupSurnames g).card > c := by omega
  have h2 : ¬ ((s ∩ groupSurnames g).card = c ∧ b.isSome = true) := by
    rintro ⟨h2, -⟩; omega
  by_cases h0 : 0 < (s ∩ groupSurnames g).card
  · simp [findStep, h0, h1, h2]
  · simp [findStep, h0]

theorem findStep_gt (s : Finset String) (b : Option KOLGroup) (c : Nat) (g : KOLGroup)
    (h : c < interCount s g) : findStep s (b, c) g = (some g, interCount s g) := by
  simp only [interCount] at h
  have h0 : 0 < (s ∩ groupSurnames g).card := by omega
  have h1 : (s ∩ groupSurnames g).card > c := h
  simp [findStep, h0, h1, interCount]

theorem findStep_tie (s : Finset String) (g0 : KOLGroup) (c : Nat) (g : KOLGroup)
    (h : interCount s g = c) (h0 : 0 < c) :
    findStep s (some g0, c) g =
      (if s ⊆ groupSurnames g then (some g, c) else (some g0, c)) := by
  simp only [interCount] at h
  simp [findStep, h, h0]

theorem findStep_none (s : Finset String) (c : Nat) (g : KOLGroup)
    (h : interCount s g ≤ c) : findStep s (none, c) g = (none, c) := by
  rcases Nat.lt_or_ge (interCount s g) c with hlt | hge
  · exact findStep_lt s none c g hlt
  · have : interCount s g = c := le_antisymm h hge
    simp only [interCount] at this
    by_cases h0 : 0 < (s ∩ groupSurnames g).card
    · have hgt : ¬ (s ∩ groupSurnames g).card > c := by omega
      simp [findStep, h0, hgt, this]
    · simp [findStep, h0]

/-- The group the tie-break rule finally keeps: starting from the first
group attaining the maximal count, every later group with the same count
whose surname set contains all input surnames replaces it, so the last
such replacer (or the first attainer itself) wins. -/
def tieBreakWinner (s : Finset String) (M : Nat) (g1 : KOLGroup) (post : List KOLGroup) :
    KOLGroup :=
  (post.filter fun h => decide (interCount s h = M ∧ s ⊆ groupSurnames h)).getLastD g1

theorem foldl_findStep_at_max (s : Finset String) :
    ∀ (post : List KOLGroup) (g0 : KOLGroup) (M : Nat),
      interCount s g0 = M → 0 < M → (∀ h ∈ post, interCount s h ≤ M) →
      post.foldl (findStep s) (some g0, M) = (some (tieBreakWinner s M g0 post), M)
  | [], g0, M, _, _, _ => rfl
  | h :: t, g0, M, hg0, hM, hle => by
    have hk : interCount s h ≤ M := hle h (List.mem_cons_self _ _)
    have hrest : ∀ x ∈ t, interCount s x ≤ M := fun x hx => hle x (List.mem_cons_of_mem _ hx)
    by_cases hkM : interCount s h = M
    · rw [List.foldl_cons, findStep_tie s g0 M h hkM hM]
      by_cases hsub : s ⊆ groupSurnames h
      · rw [if_pos hsub, foldl_findStep_at_max s t h M hkM hM hrest]
        have hcons : (h :: t).filter (fun x => decide (interCount s x = M ∧ s ⊆ groupSurnames x)) =
            h :: t.filter (fun x => decide (interCount s x = M ∧ s ⊆ groupSurnames x)) := by
          simp [List.filter_cons, hkM, hsub]
        simp only [tieBreakWinner]
        rw [hcons, List.getLastD_cons]
      · rw [if_neg hsub, foldl_findStep_at_max s t g0 M hg0 hM hrest]
        have hcons : (h :: t).filter (fun x => decide (interCount s x = M ∧ s ⊆ groupSurnames x)) =
            t.filter (fun x => decide (interCount s x = M ∧ s ⊆ groupSurnames x)) := by
          simp [List.filter_cons, hsub]
        simp only [tieBreakWinner]
        rw [hcons]
    · have hlt : interCount s h < M := lt_of_le_of_ne hk hkM
      rw [List.foldl_cons, findStep_lt s (some g0) M h hlt,
        foldl_findStep_at_max s t g0 M hg0 hM hrest]
      have hcons : (h :: t).filter (fun x => decide (interCount s x = M ∧ s ⊆ groupSurnames x)) =
          t.filter (fun x => decide (interCount s x = M ∧ s ⊆ groupSurnames x)) := by
        have : ¬ (interCount s h = M ∧ s ⊆ groupSurnames h) := fun hc => hkM hc.1
        simp [List.filter_cons, this]
      simp only [tieBreakWinner]
      rw [hcons]

theorem getLastD_mem_or {α : Type} (l : List α) (a : α) :
    l.getLastD a = a ∨ l.getLastD a ∈ l := by
  induction l generalizing a with
  | nil => exact Or.inl rfl
  | cons x xs ih =>
    rw [List.getLastD_cons]
    rcases ih x with h | h
    · right
      rw [h]
      exact List.mem_cons_self _ _
    · right
      exact List.mem_cons_of_mem _ h

theorem tieBreakWinner_cases (s : Finset String) (M : Nat) (g1 : KOLGroup)
    (post : List KOLGroup) :
    tieBreakWinner s M g1 post = g1 ∨
      (tieBreakWinner s M g1 post ∈ post ∧ interCount s (tieBreakWinner s M g1 post) = M) := by
  unfold tieBreakWinner
  rcases getLastD_mem_or
      (post.filter fun h => decide (interCount s h = M ∧ s ⊆ groupSurnames h)) g1 with h | h
  · exact Or.inl h
  · refine Or.inr ⟨List.mem_of_mem_filter h, ?_⟩
    have hp := List.of_mem_filter h
    simp only [decide_eq_true_eq] at hp
    exact hp.1

theorem foldl_findStep_all_zero (s : Finset String) :
    ∀ gs : List KOLGroup, (∀ g ∈ gs, interCount s g = 0) →
      gs.foldl (findStep s) (none, 0) = (none, 0)
  | [], _ => rfl
  | h :: t, hz => by
    rw [List.foldl_cons, findStep_zero s none 0 h (hz h (List.mem_cons_self _ _))]
    exact foldl_findStep_all_zero s t fun g hg => hz g (List.mem_cons_of_mem _ hg)

theorem foldl_findStep_climb (s : Finset String) :
    ∀ (gs : List KOLGroup) (g0 : KOLGroup),
      0 < interCount s g0 → interCount s g0 < maxInterCount s gs →
      ∃ pre g1 post, gs = pre ++ g1 :: post ∧
        interCount s g1 = maxInterCount s gs ∧
        (∀ h ∈ pre, interCount s h < maxInterCount s gs) ∧
        gs.foldl (findStep s) (some g0, interCount s g0) =
          (some (tieBreakWinner s (maxInterCount s gs) g1 post), maxInterCount s gs)
  | [], g0, h0, hlt => absurd hlt (by simp [maxInterCount])
  | h :: t, g0, h0, hlt => by
    by_cases hM : interCount s h = maxInterCount s (h :: t)
    · refine ⟨[], h, t, rfl, hM, by simp, ?_⟩
      rw [List.foldl_cons, findStep_gt s (some g0) _ h (hM ▸ hlt)]
      rw [hM]
      exact foldl_findStep_at_max s t h _ hM (lt_of_le_of_lt (Nat.zero_le _) hlt)
        (fun x hx => le_trans (le_maxInterCount s hx)
          (by rw [maxInterCount_cons]; exact le_max_right _ _))
    · have hhle : interCount s h ≤ maxInterCount s (h :: t) :=
        le_maxInterCount s (List.mem_cons_self _ _)
      have hhlt : interCount s h < maxInterCount s (h :: t) := lt_of_le_of_ne hhle hM
      have hmaxT : maxInterCount s t = maxInterCount s (h :: t) := by
        rw [maxInterCount_cons]
        rcases max_choice (interCount s h) (maxInterCount s t) with hc | hc
        · rw [maxInterCount_cons, hc] at hhlt
          omega
        · rw [hc]
      have step : ∃ g', findStep s (some g0, interCount s g0) h = (some g', interCount s g') ∧
          0 < interCount s g' ∧ interCount s g' < maxInterCount s t := by
        rcases Nat.lt_trichotomy (interCount s h) (interCount s g0) with hc | hc | hc
        · exact ⟨g0, findStep_lt s (some g0) _ h hc, h0, by omega⟩
        · rw [findStep_tie s g0 _ h hc h0]
          by_cases hsub : s ⊆ groupSurnames h
          · rw [if_pos hsub]
            exact ⟨h, by rw [hc], by omega, by omega⟩
          · rw [if_neg hsub]
            exact ⟨g0, rfl, h0, by omega⟩
        · rw [findStep_gt s (some g0) _ h hc]
          exact ⟨h, rfl, by omega, by omega⟩
      obtain ⟨g', hstep, h0', hlt'⟩ := step
      obtain ⟨pre, g1, post, hdec, hg1, hpre, hfold⟩ := foldl_findStep_climb s t g' h0' hlt'
      refine ⟨h :: pre, g1, post, by simp [hdec], by rw [← hmaxT]; exact hg1, ?_, ?_⟩
      · intro x hx
        rcases List.mem_cons.mp hx with rfl | hx'
        · exact hhlt
        · rw [← hmaxT]
          exact hpre x hx'
      · rw [List.foldl_cons, hstep, hfold, hmaxT]

theorem foldl_findStep_main (s : Finset String) :
    ∀ gs : List KOLGroup, 0 < maxInterCount s gs →
      ∃ pre g1 post, gs = pre ++ g1 :: post ∧
        interCount s g1 = maxInterCount s gs ∧
        (∀ h ∈ pre, interCount s h < maxInterCount s gs) ∧
        gs.foldl (findStep s) (none, 0) =
          (some (tieBreakWinner s (maxInterCount s gs) g1 post), maxInterCount s gs)
  | [], hM => absurd hM (by simp [maxInterCount])
  | h :: t, hM => by
    by_cases hhM : interCount s h = maxInterCount s (h :: t)
    · refine ⟨[], h, t, rfl, hhM, by simp, ?_⟩
      rw [List.foldl_cons, findStep_gt s none 0 h (by omega)]
      rw [hhM]
      exact foldl_findStep_at_max s t h _ hhM hM
        (fun x hx => le_trans (le_maxInterCount s hx)
          (by rw [maxInterCount_cons]; exact le_max_right _ _))
    · have hhle : interCount s h ≤ maxInterCount s (h :: t) :=
        le_maxInterCount s (List.mem_cons_self _ _)
      have hhlt : interCount s h < maxInterCount s (h :: t) := lt_of_le_of_ne hhle hhM
      have hmaxT : maxInterCount s t = maxInterCount s (h :: t) := by
        rw [maxInterCount_cons]
        rcases max_choice (interCount s h) (maxInterCount s t) with hc | hc
        · rw [maxInterCount_cons, hc] at hhlt
          omega
        · rw [hc]
      by_cases h0 : interCount s h = 0
      · obtain ⟨pre, g1, post, hdec, hg1, hpre, hfold⟩ :=
          foldl_findStep_main s t (by omega)
        refine ⟨h :: pre, g1, post, by simp [hdec], by rw [← hmaxT]; exact hg1, ?_, ?_⟩
        · intro x hx
          rcases List.mem_cons.mp hx with rfl | hx'
          · exact hhlt
          · rw [← hmaxT]
            exact hpre x hx'
        · rw [List.foldl_cons, findStep_zero s none 0 h h0, hfold, hmaxT]
      · obtain ⟨pre, g1, post, hdec, hg1, hpre, hfold⟩ :=
          foldl_findStep_climb s t h (by omega) (by omega)
        refine ⟨h :: pre, g1, post, by simp [hdec], by rw [← hmaxT]; exact hg1, ?_, ?_⟩
        · intro x hx
          rcases List.mem_cons.mp hx with rfl | hx'
          · exact hhlt
          · rw [← hmaxT]
            exact hpre x hx'
        · rw [List.foldl_cons, findStep_gt s none 0 h (by omega), hfold, hmaxT]

/-- The selection behaviour C1 asserts for a surname set with at least one
overlapping group: the list splits at the first group attaining the
maximal intersection count, every earlier group counts strictly less, and
the matcher returns the tie-break winner from there together with its
project id; the winner attains the maximal (hence strictly largest
possible) count, which is positive, so zero-intersection groups are never
selected. -/
def TieBreakSelection (s : Finset String) (groups : List KOLGroup) : Prop :=
  ∃ pre g1 post, groups = pre ++ g1 :: post ∧
    interCount s g1 = maxInterCount s groups ∧
    (∀ h ∈ pre, interCount s h < maxInterCount s groups) ∧
    find_matching_from_surnames s groups =
      (some (tieBreakWinner s (maxInterCount s groups) g1 post),
       (tieBreakWinner s (maxInterCount s groups) g1 post).project_id) ∧
    tieBreakWinner s (maxInterCount s groups) g1 post ∈ groups ∧
    interCount s (tieBreakWinner s (maxInterCount s groups) g1 post) =
      maxInterCount s groups ∧
    0 < maxInterCount s groups ∧
    (∀ h ∈ groups, interCount s h ≤ maxInterCount s groups)

/-- C1: for a non-empty input surname set, the selection loop of
`find_matching_kol_group` returns `(None, None)` exactly when no group
overlaps the input; otherwise it selects the group with the strictly
largest surname-intersection count under the documented tie-break (a
later group with an equal count replaces the current best only when the
input set is a subset of that group's surnames, so the last such group
after the first maximal attainer wins), and returns it with its project
id; zero-intersection groups are never candidates. -/
theorem find_matching_characterization (s : Finset String) (groups : List KOLGroup)
    (_hs : s.Nonempty) :
    ((∀ g ∈ groups, interCount s g = 0) →
      find_matching_from_surnames s groups = (none, none)) ∧
    (¬ (∀ g ∈ groups, interCount s g = 0) → TieBreakSelection s groups) := by
  constructor
  · intro hz
    rw [find_matching_from_surnames, foldl_findStep_all_zero s groups hz]
  · intro hnz
    have hM : 0 < maxInterCount s groups := by
      rcases Nat.eq_zero_or_pos (maxInterCount s groups) with h | h
      · exact absurd ((maxInterCount_eq_zero_iff s groups).mp h) hnz
      · exact h
    obtain ⟨pre, g1, post, hdec, hg1, hpre, hfold⟩ := foldl_findStep_main s groups hM
    have hwin : interCount s (tieBreakWinner s (maxInterCount s groups) g1 post) =
        maxInterCount s groups := by
      rcases tieBreakWinner_cases s (maxInterCount s groups) g1 post with h | h
      · rw [h]
        exact hg1
      · exact h.2
    have hsub : ∀ x : KOLGroup, x ∈ g1 :: post → x ∈ groups := by
      intro x hx
      rw [hdec]
      exact List.mem_append_right _ hx
    have hmem : tieBreakWinner s (maxInterCount s groups) g1 post ∈ groups := by
      rcases tieBreakWinner_cases s (maxInterCount s groups) g1 post with h | h
      · rw [h]
        exact hsub g1 (List.mem_cons_self _ _)
      · exact hsub _ (List.mem_cons_of_mem _ h.1)
    refine ⟨pre, g1, post, hdec, hg1, hpre, ?_, hmem, hwin, hM, fun h hh => le_maxInterCount s hh⟩
    rw [find_matching_from_surnames, hfold]

/-- The two concrete groups of the C1 witness instance. -/
def groupA : KOLGroup := ⟨"gA", some "pA", "smith", []⟩

/-- The second witness group, which ties `groupA` on the input and
contains all its surnames. -/
def groupB : KOLGroup := ⟨"gB", some "pB", "smith/jones", []⟩

/-- Witness for C1: the characterization applied to a concrete surname set
and group list. -/
theorem find_matching_characterization_witness :
    ¬ (∀ g ∈ [groupA, groupB], interCount {"smith"} g = 0) ∧
      TieBreakSelection {"smith"} [groupA, groupB] :=
  ⟨by decide,
   (find_matching_characterization {"smith"} [groupA, groupB] ⟨"smith", by decide⟩).2
     (by decide)⟩

theorem matchPostStep_le (s : Finset String) (b : Option KOLGroup) (c : Nat) (g : KOLGroup)
    (h : interCount s g ≤ c) : matchPostStep s (b, c) g = (b, c) := by
  simp only [interCount] at h
  have : ¬ (s ∩ groupSurnames g).card > c := by omega
  simp [matchPostStep, this]

theorem matchPostStep_gt (s : Finset String) (b : Option KOLGroup) (c : Nat) (g : KOLGroup)
    (h : c < interCount s g) : matchPostStep s (b, c) g = (some g, interCount s g) := by
  simp only [interCount] at h
  simp [matchPostStep, h, interCount]

theorem foldl_step_agree (s : Finset String) (groups : List KOLGroup)
    (hinj : ∀ g ∈ groups, ∀ g' ∈ groups,
      interCount s g = interCount s g' → 0 < interCount s g → g = g') :
    ∀ gs : List KOLGroup, (∀ g ∈ gs, g ∈ groups) →
      ∀ (b : Option KOLGroup) (c : Nat),
        (b = none → c = 0) →
        (∀ g0, b = some g0 → g0 ∈ groups ∧ interCount s g0 = c ∧ 0 < c) →
        gs.foldl (findStep s) (b, c) = gs.foldl (matchPostStep s) (b, c)
  | [], _, b, c, _, _ => rfl
  | h :: t, hgs, b, c, hbn, hbs => by
    have hht : ∀ g ∈ t, g ∈ groups := fun g hg => hgs g (List.mem_cons_of_mem _ hg)
    have hhmem : h ∈ groups := hgs h (List.mem_cons_self _ _)
    cases b with
    | none =>
      have hc0 : c = 0 := hbn rfl
      subst hc0
      by_cases hk : 0 < interCount s h
      · rw [List.foldl_cons, List.foldl_cons, findStep_gt s none 0 h hk,
          matchPostStep_gt s none 0 h hk]
        exact foldl_step_agree s groups hinj t hht (some h) (interCount s h)
          (by intro hx; cases hx)
          (by rintro g0 ⟨rfl⟩; exact ⟨hhmem, rfl, hk⟩)
      · have hz : interCount s h = 0 := by omega
        rw [List.foldl_cons, List.foldl_cons, findStep_zero s none 0 h hz,
          matchPostStep_le s none 0 h (le_of_eq hz)]
        exact foldl_step_agree s groups hinj t hht none 0 (fun _ => rfl) (by rintro g0 ⟨⟩)
    | some g0 =>
      obtain ⟨hg0mem, hg0c, hc0⟩ := hbs g0 rfl
      rcases Nat.lt_trichotomy (interCount s h) c with hlt | heq | hgt
      · rw [List.foldl_cons, List.foldl_cons, findStep_lt s (some g0) c h hlt,
          matchPostStep_le s (some g0) c h (le_of_lt hlt)]
        exact foldl_step_agree s groups hinj t hht (some g0) c (by intro hx; cases hx)
          (by rintro g1 ⟨rfl⟩; exact ⟨hg0mem, hg0c, hc0⟩)
      · have hhg0 : h = g0 := by
          refine hinj h hhmem g0 hg0mem ?_ ?_
          · rw [heq, hg0c]
          · rw [heq]
            exact hc0
        rw [List.foldl_cons, List.foldl_cons, findStep_tie s g0 c h heq hc0,
          matchPostStep_le s (some g0) c h (le_of_eq heq)]
        have hif : (if s ⊆ groupSurnames h then ((some h : Option KOLGroup), c)
            else (some g0, c)) = (some g0, c) := by
          rw [hhg0]
          by_cases hsub : s ⊆ groupSurnames g0
          · rw [if_pos hsub]
          · rw [if_neg hsub]
        rw [hif]
        exact foldl_step_agree s groups hinj t hht (some g0) c (by intro hx; cases hx)
          (by rintro g1 ⟨rfl⟩; exact ⟨hg0mem, hg0c, hc0⟩)
      · rw [List.foldl_cons, List.foldl_cons, findStep_gt s (some g0) c h hgt,
          matchPostStep_gt s (some g0) c h hgt]
        exact foldl_step_agree s groups hinj t hht (some h) (interCount s h)
          (by intro hx; cases hx)
          (by rintro g1 ⟨rfl⟩; exact ⟨hhmem, rfl, by omega⟩)

theorem find_matching_fst (s : Finset String) (groups : List KOLGroup) :
    (find_matching_from_surnames s groups).1 = (groups.foldl (findStep s) (none, 0)).1 := by
  rw [find_matching_from_surnames]
  cases h : (groups.foldl (findStep s) (none, 0)).1 <;> simp [h]

/-- The post of the C2 counterexample: its title holds the one surname
"smith". -/
def postCx : Post := ⟨"post1", some "Dr. Smith", none, "direct", none, none, none⟩

/-- C2 counterexample: on the surname set {"smith"} and the group list
[smith/jones, smith], `match_post_to_kol_group` keeps the first group
(count 1, no tie-break) while `find_matching_kol_group`'s rule moves to
the second group because the equal-count subset tie-break applies — the
two matchers select different groups from the same surname set and the
same group list in the same order. -/
theorem match_post_tie_counterexample :
    match_post_to_kol_group postCx [groupB, groupA] = some groupB ∧
    find_matching_from_surnames
        (extract_doctor_names_from_text
          ((postCx.title.getD "") ++ " " ++ (postCx.description.getD "")))
        [groupB, groupA] = (some groupA, some "pA") ∧
    groupB ≠ groupA := by
  refine ⟨by decide, by decide, by decide⟩

/-- C2 (amended): the post matcher agrees with the shoot matcher's
selection rule whenever no two distinct groups have the same positive
intersection count with the input surname set; on such ties the post
matcher keeps the earlier group because it lacks the subset tie-break. -/
theorem match_post_agrees_without_ties (s : Finset String) (groups : List KOLGroup)
    (hinj : ∀ g ∈ groups, ∀ g' ∈ groups,
      interCount s g = interCount s g' → 0 < interCount s g → g = g') :
    match_post_from_surnames s groups = (find_matching_from_surnames s groups).1 := by
  rw [find_matching_fst]
  by_cases hs : s = ∅
  · have hz : ∀ g ∈ groups, interCount s g = 0 := by
      intro g _
      simp [interCount, hs]
    rw [match_post_from_surnames, if_pos hs, foldl_findStep_all_zero s groups hz]
  · rw [match_post_from_surnames, if_neg hs,
      ← foldl_step_agree s groups hinj groups (fun g hg => hg) none 0 (fun _ => rfl)
        (by rintro g0 ⟨⟩)]

/-- Witness for C2's amended theorem at a concrete tie-free instance. -/
theorem match_post_agrees_witness :
    match_post_from_surnames {"smith"} [groupA] =
      (find_matching_from_surnames {"smith"} [groupA]).1 :=
  match_post_agrees_without_ties {"smith"} [groupA] (by decide)

/-! ### Idempotence of the shoot sweep (C3) -/

theorem assign_cases (groups : List KOLGroup) (s : Shoot) :
    assign_shoot_to_kol_group groups s = (false, s) ∨
    ∃ g p, find_matching_kol_group groups s.doctors = (some g, some p) ∧
      (!p.isEmpty) = true ∧
      assign_shoot_to_kol_group groups s =
        (true, { s with kol_group_id := some g.id, project_id := some p }) := by
  rw [assign_shoot_to_kol_group]
  by_cases hd : s.doctors.isEmpty = true
  · left
    rw [if_pos hd]
  · rw [if_neg hd]
    by_cases hl : (optTruthy s.kol_group_id && optTruthy s.project_id) = true
    · left
      rw [if_pos hl]
    · rw [if_neg hl]
      cases hm : find_matching_kol_group groups s.doctors with
      | mk og opid =>
        cases og with
        | none => exact Or.inl rfl
        | some g =>
          cases opid with
          | none =>
            left
            simp [optTruthy]
          | some p =>
            cases hp : p.isEmpty
            · right
              exact ⟨g, p, rfl, by rw [hp]; rfl, by simp [optTruthy, hp]⟩
            · left
              simp [optTruthy, hp]

theorem assign_false_unchanged (groups : List KOLGroup) (s : Shoot)
    (h : (assign_shoot_to_kol_group groups s).1 = false) :
    (assign_shoot_to_kol_group groups s).2 = s := by
  rcases assign_cases groups s with hca | ⟨g, p, _, _, hca⟩
  · rw [hca]
  · rw [hca] at h
    cases h

theorem assign_true_linked (groups : List KOLGroup) (s : Shoot)
    (h : (assign_shoot_to_kol_group groups s).1 = true) :
    shootUnlinked (assign_shoot_to_kol_group groups s).2 = false := by
  rcases assign_cases groups s with hca | ⟨g, p, _, _, hca⟩
  · rw [hca] at h
    cases h
  · rw [hca]
    simp [shootUnlinked]

theorem assignStep_fold_assigned (groups : List KOLGroup) :
    ∀ (sel : List Shoot) (st : AssignStats),
      (sel.foldl (assignStep groups) st).assigned =
        st.assigned + sel.countP fun s => (assign_shoot_to_kol_group groups s).1
  | [], st => by simp
  | s :: t, st => by
    rw [List.foldl_cons, List.countP_cons, assignStep_fold_assigned groups t]
    by_cases h : (assign_shoot_to_kol_group groups s).1 = true
    · simp [assignStep, h]
      omega
    · simp only [Bool.not_eq_true] at h
      simp [assignStep, h]

/-- C3: running `assign_unlinked_shoots` twice in immediate succession
yields `assigned = 0` on the second run — every shoot the first run
assigned has both link fields non-null afterwards and is not selected
again, and every selected shoot the first run could not assign is
unchanged and deterministically fails again. -/
theorem assign_unlinked_idempotent (db : DBState) :
    ((assign_unlinked_shoots (assign_unlinked_shoots db).1).2).assigned = 0 ∧
    (∀ s : Shoot, (assign_shoot_to_kol_group db.kol_groups s).1 = true →
      (assign_shoot_to_kol_group db.kol_groups s).2.kol_group_id.isSome = true ∧
      (assign_shoot_to_kol_group db.kol_groups s).2.project_id.isSome = true) := by
  constructor
  · rw [assign_unlinked_shoots, assign_unlinked_shoots]
    simp only [assignStep_fold_assigned]
    rw [Nat.zero_add, List.countP_eq_zero]
    intro x hx
    have hxu : shootUnlinked x = true := List.of_mem_filter hx
    have hxm := List.mem_of_mem_filter hx
    simp only [List.mem_map] at hxm
    obtain ⟨s, _, rfl⟩ := hxm
    by_cases hu : shootUnlinked s = true
    · rw [if_pos hu] at hxu ⊢
      by_cases ha : (assign_shoot_to_kol_group db.kol_groups s).1 = true
      · rw [assign_true_linked db.kol_groups s ha] at hxu
        cases hxu
      · simp only [Bool.not_eq_true] at ha
        rw [assign_false_unchanged db.kol_groups s ha]
        simp [ha]
    · rw [if_neg hu] at hxu
      exact absurd hxu hu
  · intro s h
    have hlink := assign_true_linked db.kol_groups s h
    simp only [shootUnlinked, Bool.or_eq_false_iff] at hlink
    refine ⟨?_, ?_⟩
    · cases hk : (assign_shoot_to_kol_group db.kol_groups s).2.kol_group_id with
      | none =>
        rw [hk] at hlink
        simp at hlink
      | some v => rfl
    · cases hk : (assign_shoot_to_kol_group db.kol_groups s).2.project_id with
      | none =>
        rw [hk] at hlink
        simp at hlink
      | some v => rfl

/-- Witness for C3: the per-shoot half of the idempotence theorem applied
at a concrete assignable shoot. -/
theorem assign_unlinked_idempotent_witness :
    (assign_shoot_to_kol_group [⟨"g1", some "p1", "smith/jones", []⟩]
        ⟨"s9", "Shoot9", ["Dr. Smith"], none, none⟩).1 = true ∧
    ((assign_shoot_to_kol_group [⟨"g1", some "p1", "smith/jones", []⟩]
        ⟨"s9", "Shoot9", ["Dr. Smith"], none, none⟩).2.kol_group_id.isSome = true ∧
     (assign_shoot_to_kol_group [⟨"g1", some "p1", "smith/jones", []⟩]
        ⟨"s9", "Shoot9", ["Dr. Smith"], none, none⟩).2.project_id.isSome = true) :=
  ⟨by decide,
   (assign_unlinked_idempotent
      ⟨[], [⟨"g1", some "p1", "smith/jones", []⟩],
       [⟨"s9", "Shoot9", ["Dr. Smith"], none, none⟩], [], []⟩).2
     ⟨"s9", "Shoot9", ["Dr. Smith"], none, none⟩ (by decide)⟩

/-! ### The tagging pipeline's selection and counters (C5, C9) -/

theorem processPost_tags_isSome (ctx : TagCtx) (p : Post) :
    ((processPost ctx p).1.tags).isSome = true := by
  unfold processPost
  simp only
  split
  · rename_i r heq
    split at heq
    · rename_i g
      split at heq
      · cases heq
      · cases heq
        simp
    · cases heq
  · split
    · simp
    · simp

theorem bumpStats_total (st : TagStats) (o : TagOutcome) :
    (bumpStats st o).total_untagged = st.total_untagged := by
  cases o <;> rfl

theorem bumpStats_sum (st : TagStats) (o : TagOutcome) :
    (bumpStats st o).kol_matched + (bumpStats st o).content_scanned +
      (bumpStats st o).still_empty =
    st.kol_matched + st.content_scanned + st.still_empty + 1 := by
  cases o <;> simp [bumpStats] <;> omega

theorem tagStats_fold_sum (ctx : TagCtx) :
    ∀ (posts : List Post) (st : TagStats),
      ((posts.foldl (fun st p => bumpStats st (processPost ctx p).2) st).kol_matched +
        (posts.foldl (fun st p => bumpStats st (processPost ctx p).2) st).content_scanned +
        (posts.foldl (fun st p => bumpStats st (processPost ctx p).2) st).still_empty) =
      st.kol_matched + st.content_scanned + st.still_empty + posts.length
  | [], st => by simp
  | p :: t, st => by
    rw [List.foldl_cons, tagStats_fold_sum ctx t, bumpStats_sum]
    simp
    omega

theorem tagStats_fold_total (ctx : TagCtx) :
    ∀ (posts : List Post) (st : TagStats),
      (posts.foldl (fun st p => bumpStats st (processPost ctx p).2) st).total_untagged =
        st.total_untagged
  | [], _ => rfl
  | p :: t, st => by
    rw [List.foldl_cons, tagStats_fold_total ctx t, bumpStats_total]

/-- C9: in every run of `tag_official_posts` each fetched untagged post
lands in exactly one of the three outcome counters, so
`kol_matched + content_scanned + still_empty = total_untagged`, and every
post of the resulting state has a non-null tags field unless it was not
fetched at all — no post of the final state is still both `direct` and
tag-null. -/
theorem tag_official_posts_counters (db : DBState) :
    ((tag_official_posts db).2.kol_matched + (tag_official_posts db).2.content_scanned +
        (tag_official_posts db).2.still_empty = (tag_official_posts db).2.total_untagged) ∧
    ∀ q ∈ (tag_official_posts db).1.posts, postUntagged q = false := by
  constructor
  · rw [tag_official_posts]
    simp only
    rw [tagStats_fold_sum, tagStats_fold_total]
    simp
  · intro q hq
    rw [tag_official_posts] at hq
    simp only [List.mem_map] at hq
    obtain ⟨p, _, rfl⟩ := hq
    by_cases hu : postUntagged p = true
    · rw [if_pos hu]
      have := processPost_tags_isSome (buildTagCtx db) p
      rw [postUntagged]
      cases htags : ((processPost (buildTagCtx db) p).1.tags) with
      | none => rw [htags] at this; cases this
      | some ts => simp
    · rw [if_neg hu]
      exact Bool.not_eq_true _ ▸ (by simpa using hu)

/-- Witness for C9's membership conjunct at a concrete state. -/
theorem tag_official_posts_counters_witness :
    (⟨"q1", none, none, "direct", some [], none, none⟩ : Post) ∈
      (tag_official_posts ⟨[], [], [], [],
        [⟨"q1", none, none, "direct", some [], none, none⟩]⟩).1.posts ∧
    postUntagged (⟨"q1", none, none, "direct", some [], none, none⟩ : Post) = false :=
  ⟨by decide,
   (tag_official_posts_counters ⟨[], [], [], [],
      [⟨"q1", none, none, "direct", some [], none, none⟩]⟩).2
     ⟨"q1", none, none, "direct", some [], none, none⟩ (by decide)⟩

/-- The no-match branch of the per-post loop: when the content scan of
the post's title+description yields no tags and any pass-1 match has an
empty merged pool, the post is marked processed with exactly the empty
tag list (line 455: `post.tags = []`), all other fields untouched, and
the outcome is the "empty" counter. -/
theorem processPost_no_match (ctx : TagCtx) (p : Post)
    (hscan : scan_text_for_tags ((p.title.getD "") ++ " " ++ (p.description.getD ""))
        ctx.tag_vocab ctx.known_doctors = [])
    (hkol : ∀ g, match_post_to_kol_group p ctx.kol_groups = some g →
        (dictLookup ctx.group_tags g.id).getD [] = []) :
    processPost ctx p = ({ p with tags := some [] }, TagOutcome.stillEmpty) := by
  unfold processPost
  by_cases hg : ctx.kol_groups.isEmpty
  · simp [hg, hscan]
  · cases hm : match_post_to_kol_group p ctx.kol_groups with
    | none => simp [hg, hm, hscan]
    | some g =>
      have hk := hkol g hm
      simp [hg, hm, hk, hscan]

/-- C5: `tag_official_posts` selects exactly the posts with null tags and
source "direct": any other post — in particular one whose tags are the
empty list — is returned unchanged, every selected post ends the run
with a non-null tags field, and a selected post for which the run finds
no match (the content scan is empty and any matched group's merged pool
is empty) has its tags set to exactly the empty list — the "processed,
no match" sentinel — so the null / empty-list two-state distinction
survives every run. -/
theorem tag_official_posts_selection (db : DBState) :
    ((tag_official_posts db).1.posts.length = db.posts.length) ∧
    (∀ (i : Nat) (hi : i < (tag_official_posts db).1.posts.length)
        (hi' : i < db.posts.length),
      (postUntagged db.posts[i] = false →
        (tag_official_posts db).1.posts[i] = db.posts[i]) ∧
      (db.posts[i].tags = some [] →
        (tag_official_posts db).1.posts[i] = db.posts[i]) ∧
      (postUntagged db.posts[i] = true →
        ((tag_official_posts db).1.posts[i].tags).isSome = true) ∧
      (postUntagged db.posts[i] = true →
        scan_text_for_tags
            ((db.posts[i].title.getD "") ++ " " ++ (db.posts[i].description.getD ""))
            (buildTagCtx db).tag_vocab (buildTagCtx db).known_doctors = [] →
        (∀ g, match_post_to_kol_group db.posts[i] (buildTagCtx db).kol_groups = some g →
          (dictLookup (buildTagCtx db).group_tags g.id).getD [] = []) →
        (tag_official_posts db).1.posts[i] = { db.posts[i] with tags := some [] })) := by
  have hposts : (tag_official_posts db).1.posts =
      db.posts.map fun p =>
        if postUntagged p then (processPost (buildTagCtx db) p).1 else p := rfl
  constructor
  · rw [hposts, List.length_map]
  · intro i hi hi'
    have hget : (tag_official_posts db).1.posts[i] =
        (if postUntagged db.posts[i] then (processPost (buildTagCtx db) db.posts[i]).1
         else db.posts[i]) := by
      simp only [hposts, List.getElem_map]
    refine ⟨?_, ?_, ?_, ?_⟩
    · intro h
      rw [hget, h]
      simp
    · intro h
      have hu : postUntagged db.posts[i] = false := by
        rw [postUntagged, h]
        simp
      rw [hget, hu]
      simp
    · intro h
      rw [hget, h]
      simp only [if_true]
      exact processPost_tags_isSome _ _
    · intro h hscan hkol
      rw [hget, h]
      simp only [if_true]
      rw [processPost_no_match (buildTagCtx db) db.posts[i] hscan hkol]

/-- Witness for C5 at a concrete one-post state: a selected (null-tags,
source "direct") post whose text matches nothing ends the run with tags
set to exactly the empty list. -/
theorem tag_official_posts_selection_witness :
    postUntagged (⟨"q2", some "nothing here", none, "direct", none, none, none⟩ : Post) = true ∧
    (tag_official_posts ⟨[], [], [], [],
        [⟨"q2", some "nothing here", none, "direct", none, none, none⟩]⟩).1.posts[0] =
      { (⟨"q2", some "nothing here", none, "direct", none, none, none⟩ : Post) with
        tags := some [] } :=
  ⟨by decide,
   ((tag_official_posts_selection ⟨[], [], [], [],
        [⟨"q2", some "nothing here", none, "direct", none, none, none⟩]⟩).2 0
      (by decide) (by decide)).2.2.2 (by decide) (by decide)
      (by intro g hg; exact Option.noConfusion hg)⟩

/-! ### Merged tag pools of same-named groups (C7) -/

theorem dictLookup_dictInsert_eq {α : Type} (k : String) (v : α) :
    ∀ d : List (String × α), dictLookup (dictInsert k v d) k = some v
  | [] => by simp [dictInsert, dictLookup]
  | kv :: rest => by
    by_cases h : kv.1 = k
    · simp [dictInsert, h, dictLookup]
    · simp [dictInsert, h, dictLookup, dictLookup_dictInsert_eq k v rest]

theorem dictLookup_dictInsert_ne {α : Type} (k k' : String) (v : α) (h : k' ≠ k) :
    ∀ d : List (String × α), dictLookup (dictInsert k v d) k' = dictLookup d k'
  | [] => by
    have hkk : ¬ k = k' := fun hk => h hk.symm
    simp [dictInsert, dictLookup, hkk]
  | kv :: rest => by
    by_cases hk : kv.1 = k
    · have hkk : ¬ k = k' := fun hkk => h hkk.symm
      simp [dictInsert, hk, dictLookup, hkk]
    · by_cases hk' : kv.1 = k'
      · simp [dictInsert, hk, dictLookup, hk', h]
      · simp [dictInsert, hk, dictLookup, hk', dictLookup_dictInsert_ne k k' v h rest]

theorem dictLookup_fold_insert_no_key {α : Type} (f : KOLGroup → String) (v : KOLGroup → α)
    (k : String) :
    ∀ (gs : List KOLGroup) (d : List (String × α)), (∀ g ∈ gs, f g ≠ k) →
      dictLookup (gs.foldl (fun d g => dictInsert (f g) (v g) d) d) k = dictLookup d k
  | [], d, _ => rfl
  | g :: t, d, h => by
    rw [List.foldl_cons,
      dictLookup_fold_insert_no_key f v k t _ (fun x hx => h x (List.mem_cons_of_mem _ hx)),
      dictLookup_dictInsert_ne (f g) k (v g)
        (fun hkk => h g (List.mem_cons_self _ _) hkk.symm) d]

theorem dictLookup_fold_insert_mem {α : Type} (f : KOLGroup → String) (v : KOLGroup → α) :
    ∀ (gs : List KOLGroup) (d : List (String × α)) (g : KOLGroup),
      g ∈ gs → (gs.map f).Nodup →
      dictLookup (gs.foldl (fun d g => dictInsert (f g) (v g) d) d) (f g) = some (v g)
  | [], _, g, hg, _ => absurd hg (List.not_mem_nil g)
  | g' :: t, d, g, hg, hnd => by
    rw [List.map_cons, List.nodup_cons] at hnd
    rcases List.mem_cons.mp hg with rfl | hgt
    · rw [List.foldl_cons,
        dictLookup_fold_insert_no_key f v (f g) t _
          (fun x hx hfx => hnd.1 (hfx ▸ List.mem_map_of_mem f hx)),
        dictLookup_dictInsert_eq]
    · rw [List.foldl_cons]
      exact dictLookup_fold_insert_mem f v t _ g hgt hnd.2

/-- The union, over the groups of the list bearing the given name, of
their raw tag pools — the set `name_to_tags[name]` accumulates. -/
def nameTagUnion (raw : List (String × List String)) (nm : String) :
    List KOLGroup → Finset String
  | [] => ∅
  | g :: t =>
    (if g.name = nm then ((dictLookup raw g.id).getD []).toFinset else ∅) ∪
      nameTagUnion raw nm t

theorem nameToTags_fold_lookup (raw : List (String × List String)) (nm : String) :
    ∀ (gs : List KOLGroup) (d : List (String × Finset String)),
      dictLookup
        (gs.foldl
          (fun d g =>
            let ts := ((dictLookup raw g.id).getD []).toFinset
            match dictLookup d g.name with
            | some old => dictInsert g.name (old ∪ ts) d
            | none => dictInsert g.name ts d)
          d) nm =
      (match dictLookup d nm with
       | some old => some (old ∪ nameTagUnion raw nm gs)
       | none =>
         if gs.any (fun g => g.name = nm) then some (nameTagUnion raw nm gs) else none)
  | [], d => by
    cases h : dictLookup d nm <;> simp [nameTagUnion, h]
  | g :: t, d => by
    rw [List.foldl_cons]
    by_cases hnm : g.name = nm
    · cases hd : dictLookup d g.name with
      | some old =>
        simp only [hd]
        rw [nameToTags_fold_lookup raw nm t _]
        rw [hnm] at hd
        rw [hnm, dictLookup_dictInsert_eq]
        simp only [hd, nameTagUnion, hnm, if_true]
        rw [Finset.union_assoc]
      | none =>
        simp only [hd]
        rw [nameToTags_fold_lookup raw nm t _]
        rw [hnm] at hd
        rw [hnm, dictLookup_dictInsert_eq]
        simp only [hd, nameTagUnion, hnm, if_true, List.any_cons]
        have : (g.name = nm) = True := by simp [hnm]
        simp [hnm]
    · cases hd : dictLookup d g.name with
      | some old =>
        simp only [hd]
        rw [nameToTags_fold_lookup raw nm t _,
          dictLookup_dictInsert_ne _ _ _ (fun h => hnm h.symm)]
        simp [nameTagUnion, hnm, List.any_cons]
      | none =>
        simp only [hd]
        rw [nameToTags_fold_lookup raw nm t _,
          dictLookup_dictInsert_ne _ _ _ (fun h => hnm h.symm)]
        simp [nameTagUnion, hnm, List.any_cons]

theorem groupTagsDict_lookup (db : DBState)
    (hids : (db.kol_groups.map KOLGroup.id).Nodup)
    (g : KOLGroup) (hg : g ∈ db.kol_groups) :
    dictLookup (groupTagsDict db) g.id =
      some (sortStrings (nameTagUnion (groupTagsRaw db) g.name db.kol_groups)) := by
  rw [groupTagsDict]
  rw [dictLookup_fold_insert_mem (fun g => g.id)
      (fun g => sortStrings ((dictLookup (nameToTags db (groupTagsRaw db)) g.name).getD ∅))
      db.kol_groups [] g hg hids]
  rw [nameToTags]
  rw [nameToTags_fold_lookup (groupTagsRaw db) g.name db.kol_groups []]
  have hany : db.kol_groups.any (fun g' => g'.name = g.name) = true := by
    rw [List.any_eq_true]
    exact ⟨g, hg, by simp⟩
  simp [dictLookup, hany]

/-- C7: when two KOL groups bear the same name string, the per-group tag
pools that step 4 of the tagging pipeline uses (`group_tags[id]`) are
equal, and each equals the sorted union of the raw (clip-reachable) tag
pools of all groups bearing that name; the raw pool of each group is
exactly `get_tags_for_kol_group`, the tags of clips reachable via
KOLGroup → Shoot → Clip. -/
theorem merged_group_tags (db : DBState)
    (hids : (db.kol_groups.map KOLGroup.id).Nodup)
    (g1 g2 : KOLGroup) (h1 : g1 ∈ db.kol_groups) (h2 : g2 ∈ db.kol_groups)
    (hname : g1.name = g2.name) :
    dictLookup (groupTagsDict db) g1.id = dictLookup (groupTagsDict db) g2.id ∧
    dictLookup (groupTagsDict db) g1.id =
      some (sortStrings (nameTagUnion (groupTagsRaw db) g1.name db.kol_groups)) ∧
    ∀ g ∈ db.kol_groups,
      dictLookup (groupTagsRaw db) g.id =
        some (get_tags_for_kol_group db.shoots db.clips g) := by
  refine ⟨?_, groupTagsDict_lookup db hids g1 h1, ?_⟩
  · rw [groupTagsDict_lookup db hids g1 h1, groupTagsDict_lookup db hids g2 h2, hname]
  · intro g hg
    rw [groupTagsRaw]
    exact dictLookup_fold_insert_mem (fun g => g.id)
      (fun g => get_tags_for_kol_group db.shoots db.clips g) db.kol_groups [] g hg hids

/-- The two same-named groups of spec Example 4. -/
def iyengarA : KOLGroup := ⟨"ga", some "p1", "Iyengar/Dietrich", []⟩

/-- The sibling group with the same name in another project. -/
def iyengarB : KOLGroup := ⟨"gb", some "p2", "Iyengar/Dietrich", []⟩

/-- A state where only `iyengarA` has a shoot with a tagged clip. -/
def exDB7 : DBState :=
  ⟨[], [iyengarA, iyengarB],
   [⟨"s1", "Shoot1", [], some "ga", some "p1"⟩],
   [⟨"c1", some "s1", some ["topic:Survivorship"]⟩], []⟩

/-- Witness for C7: Example 4 concretely — both same-named groups' merged
pools equal `["topic:Survivorship"]` although only one group has clips. -/
theorem merged_group_tags_witness :
    dictLookup (groupTagsDict exDB7) iyengarA.id = some ["topic:Survivorship"] ∧
    (dictLookup (groupTagsDict exDB7) iyengarA.id =
        dictLookup (groupTagsDict exDB7) iyengarB.id ∧
      dictLookup (groupTagsDict exDB7) iyengarA.id =
        some (sortStrings (nameTagUnion (groupTagsRaw exDB7) iyengarA.name exDB7.kol_groups)) ∧
      ∀ g ∈ exDB7.kol_groups,
        dictLookup (groupTagsRaw exDB7) g.id =
          some (get_tags_for_kol_group exDB7.shoots exDB7.clips g)) :=
  ⟨by decide,
   merged_group_tags exDB7 (by decide) iyengarA iyengarB (by decide) (by decide) rfl⟩

/-! ### The channel-sync auto-tag step raises (C8) -/

/-- C8 (code bug): for every database state, the statistics dict returned
by `tag_official_posts` has only the keys total_untagged / kol_matched /
content_scanned / still_empty / tags_applied, so the read of
`tag_stats["matched"]` on line 193 of `channel_sync.py` raises `KeyError`
on every run that reaches the auto-tag step — the spec's promise that the
core's operations never raise is broken by this caller path. -/
theorem sync_youtube_tag_step_keyerror (db : DBState) :
    sync_youtube_tag_step db = Except.error "KeyError: matched" ∧
    dictLookup (tagStatsDict (tag_official_posts db).2) "matched" = none := by
  have hlook : dictLookup (tagStatsDict (tag_official_posts db).2) "matched" = none := by
    simp [tagStatsDict, dictLookup]
  refine ⟨?_, hlook⟩
  rw [sync_youtube_tag_step]
  simp only [dictGetNat, hlook]
  rfl

/-- A concrete group and shoot exercising the writing branch of C10. -/
def witnessGroup : KOLGroup := ⟨"g1", some "p1", "smith/jones", []⟩

/-- The shoot before the witnessed assignment. -/
def witnessShoot : Shoot := ⟨"s9", "Shoot9", ["Dr. Smith"], none, none⟩

/-- Witness for C10: the frame theorem applied at a concrete successful
assignment. -/
theorem assign_shoot_frame_witness :
    ∃ g pid,
      find_matching_kol_group [witnessGroup] witnessShoot.doctors = (some g, some pid) ∧
      pid ≠ "" ∧
      (⟨"s9", "Shoot9", ["Dr. Smith"], some "g1", some "p1"⟩ : Shoot).kol_group_id = some g.id ∧
      (⟨"s9", "Shoot9", ["Dr. Smith"], some "g1", some "p1"⟩ : Shoot).project_id = some pid ∧
      (⟨"s9", "Shoot9", ["Dr. Smith"], some "g1", some "p1"⟩ : Shoot).id = witnessShoot.id ∧
      (⟨"s9", "Shoot9", ["Dr. Smith"], some "g1", some "p1"⟩ : Shoot).name = witnessShoot.name ∧
      (⟨"s9", "Shoot9", ["Dr. Smith"], some "g1", some "p1"⟩ : Shoot).doctors = witnessShoot.doctors :=
  (assign_shoot_frame [witnessGroup] witnessShoot).2.2.2.2
    ⟨"s9", "Shoot9", ["Dr. Smith"], some "g1", some "p1"⟩ (by decide)

end CHM
